import Mathlib

/-
  Verification development for the Tiny Group Chat repository.

  The definitions below are a shallow embedding of the multi-room chat
  server (backend/src/chatServer.js), its persistence layer
  (backend/src/utils/roomPersistence.js, backend/src/db/models/Message.js),
  and the frame validation (backend/src/utils/validateMessage.js).

  Conventions of the embedding:
  * A connection (a WebSocket object in the source) is an opaque handle,
    modelled as a natural number.
  * The MongoDB collection of message batches for one room is modelled as a
    `RoomStore`: a list of batch documents in insertion order together with
    a counter supplying fresh document ids (Mongo `_id`).  Queries that sort
    by a field are modelled by sorting the list by that field.
  * JavaScript `Date.now()` is modelled by a timestamp argument carried by
    each inbound event; all `Date.now()` calls while handling one event
    return that value.
  * A storage fault during `addMessageToRoom` (caught and only logged in the
    source) is modelled by a boolean `ok` carried by each event: when `ok`
    is false the append (and its cleanup) leaves the store unchanged and
    produces no output, exactly like the catch branch in the source.
  * Outputs are the frames actually delivered: `ws.send` guarded by
    `readyState === OPEN` in the source is modelled by emitting a frame only
    when the target connection is in the set of open connections.
  * Handlers are modelled as atomic state transformers, following the
    scheduling model of the specification (single logical thread, inbound
    events processed one at a time).
-/

set_option maxHeartbeats 1000000

namespace TinyGroupChat

/-! ## Message store (backend/src/utils/roomPersistence.js) -/

/-- Constant `MAX_MESSAGES_PER_ROOM` from roomPersistence.js. -/
def MAX_MESSAGES_PER_ROOM : Nat := 100

/-- Constant `MESSAGES_PER_BATCH` from roomPersistence.js. -/
def MESSAGES_PER_BATCH : Nat := 50

/-- Constant `AVAILABLE_ROOMS` from roomPersistence.js. -/
def AVAILABLE_ROOMS : List String := ["general", "random", "games"]

/-- `getAvailableRooms()` from roomPersistence.js. -/
def getAvailableRooms : List String := AVAILABLE_ROOMS

/-- `isValidRoom(roomName)` from roomPersistence.js. -/
def isValidRoom (roomName : String) : Bool := AVAILABLE_ROOMS.contains roomName

/-- An individual stored message, `individualMessageSchema` of Message.js:
`type` (\x22message\x22 or \x22system\x22), `from` (absent for system
messages), `message` text and a numeric timestamp. -/
structure StoredMsg where
  mtype : String
  sender : Option String
  text : String
  timestamp : Nat
deriving DecidableEq, Repr

/-- A batch document, `messageBatchSchema` of Message.js (the `room` key is
kept outside: a `RoomStore` is the sub-collection of one room).  `bid`
models the Mongo document id `_id`. -/
structure Batch where
  bid : Nat
  messages : List StoredMsg
  startTime : Nat
  endTime : Nat
  messageCount : Nat
deriving DecidableEq, Repr

/-- All batch documents of one room, in insertion order, plus a fresh-id
counter for new documents. -/
structure RoomStore where
  nextId : Nat
  batches : List Batch
deriving DecidableEq, Repr

/-- The empty sub-collection for a room. -/
def RoomStore.empty : RoomStore := ⟨0, []⟩

/-- `MessageBatch.find({room}).sort({startTime: 1})`: the room's batches
sorted ascending by `startTime`. -/
def sortBatches (bs : List Batch) : List Batch :=
  bs.insertionSort (fun a b => a.startTime ≤ b.startTime)

/-- `MessageBatch.findOne({room, messageCount: {$lt: MESSAGES_PER_BATCH}})
.sort({endTime: -1})`: among the room's non-full batches, one with maximal
`endTime`. -/
def findAppendableBatch (bs : List Batch) : Option Batch :=
  (bs.filter (fun b => b.messageCount < MESSAGES_PER_BATCH)).foldl
    (fun acc b =>
      match acc with
      | none => some b
      | some a => if a.endTime < b.endTime then some b else some a)
    none

/-- `message.timestamp || Date.now()` in `addMessageToRoom` (a JavaScript
falsy check: a zero timestamp also falls back to the clock). -/
def effectiveTs (m : StoredMsg) (now : Nat) : Nat :=
  if m.timestamp = 0 then now else m.timestamp

/-- The middle part of `addMessageToRoom`: push onto the most recent
non-full batch (updating `endTime` and `messageCount`), or create a new
batch when none exists. -/
def pushMessage (s : RoomStore) (m : StoredMsg) (now : Nat) : RoomStore :=
  let ts := effectiveTs m now
  let stored : StoredMsg := ⟨m.mtype, m.sender, m.text, ts⟩
  match findAppendableBatch s.batches with
  | some batch =>
      let updated : Batch :=
        { batch with
            messages := batch.messages ++ [stored]
            endTime := ts
            messageCount := batch.messages.length + 1 }
      { s with batches := s.batches.map (fun b => if b.bid = batch.bid then updated else b) }
  | none =>
      { nextId := s.nextId + 1
        batches := s.batches ++ [⟨s.nextId, [stored], ts, ts, 1⟩] }

/-- Total stored message count of a room, as computed by
`batches.reduce((sum, b) => sum + b.messageCount, 0)` in
`cleanupOldMessages`. -/
def totalCount (bs : List Batch) : Nat := (bs.map (·.messageCount)).sum

/-- The `for (const batch of batches)` loop of `cleanupOldMessages`:
collect batches to delete, oldest first, while `messagesToRemove` is still
positive. -/
def selectToDelete : Int → List Batch → List Batch
  | _, [] => []
  | r, b :: bs => if r ≤ 0 then [] else b :: selectToDelete (r - (b.messageCount : Int)) bs

/-- `cleanupOldMessages(roomName)` from roomPersistence.js: when the total
stored count exceeds `MAX_MESSAGES_PER_ROOM`, delete whole batches from the
oldest end (`deleteMany` by `_id`). -/
def cleanupOldMessages (s : RoomStore) : RoomStore :=
  let sorted := sortBatches s.batches
  let total := totalCount sorted
  if total ≤ MAX_MESSAGES_PER_ROOM then s
  else
    let delIds := (selectToDelete ((total : Int) - (MAX_MESSAGES_PER_ROOM : Int)) sorted).map (·.bid)
    { s with batches := s.batches.filter (fun b => !(delIds.contains b.bid)) }

/-- The store effect of one successful `addMessageToRoom` call on one
room's sub-collection: push the message, then run retention cleanup. -/
def addMessage (s : RoomStore) (m : StoredMsg) (now : Nat) : RoomStore :=
  cleanupOldMessages (pushMessage s m now)

/-- `loadRoomHistory(roomName)` from roomPersistence.js, restricted to one
room's sub-collection: flatten the batches in `startTime` order and return
the last `MAX_MESSAGES_PER_ROOM` messages (`slice(-MAX_MESSAGES_PER_ROOM)`). -/
def loadRoomHistory (s : RoomStore) : List StoredMsg :=
  let allMessages := ((sortBatches s.batches).map (·.messages)).flatten
  allMessages.drop (allMessages.length - MAX_MESSAGES_PER_ROOM)

/-- `addMessageToRoom` guarded by the storage-fault model: when `ok` is
false the underlying store operation fails, the error is caught and logged
(roomPersistence.js lines 94-97) and the store is left unchanged. -/
def addMessageAttempt (ok : Bool) (s : RoomStore) (m : StoredMsg) (now : Nat) : RoomStore :=
  if ok then addMessage s m now else s

/-! ## Chat server (backend/src/chatServer.js) -/

/-- A connection handle (one WebSocket object). -/
abbrev Conn := Nat

/-- The per-connection record stored in `this.clients`:
`{ name: string, currentRoom: string|null }`. -/
structure ClientInfo where
  name : String
  currentRoom : Option String
deriving DecidableEq, Repr

/-- Inbound client frames after JSON parsing (messageTypes.js: `join`,
`join_room`, `message`); `other` covers frames with an unknown `type`. -/
inductive ClientMsg where
  | join (name : String)
  | joinRoom (room : String)
  | chat (text : String)
  | other (ty : String)
deriving DecidableEq, Repr

/-- Outbound server frames (messageTypes.js). -/
inductive Frame where
  | roomList (rooms : List String)
  | history (messages : List StoredMsg) (room : String)
  | system (message : String)
  | userJoinedRoom (user : String) (timestamp : Nat) (room : String)
  | userLeftRoom (user : String) (timestamp : Nat) (room : String)
  | chat (sender : String) (message : String) (timestamp : Nat) (room : String)
  | error (message : String)
  | usernameTaken (message : String)
deriving DecidableEq, Repr

/-- Whether a frame is an `error` frame. -/
def isErrorFrame : Frame → Bool
  | .error _ => true
  | _ => false

/-- Whether a frame is a `username_taken` frame. -/
def isUsernameTakenFrame : Frame → Bool
  | .usernameTaken _ => true
  | _ => false

/-- The whole server state: `this.clients` (a Map in insertion order),
`this.rooms` (room name to member set, empty for unknown names), the
per-room persisted batches, and the set of connections whose
`readyState` is `OPEN`. -/
structure ServerState where
  clients : List (Conn × ClientInfo)
  rooms : String → List Conn
  histories : String → RoomStore
  openConns : List Conn

/-- `this.clients.get(ws)`. -/
def lookupClient (l : List (Conn × ClientInfo)) (c : Conn) : Option ClientInfo :=
  (l.find? (fun p => p.1 == c)).map (·.2)

/-- `this.clients.set(ws, info)`: replace in place when the key is present,
append otherwise (JavaScript Map keeps insertion order). -/
def setClient (l : List (Conn × ClientInfo)) (c : Conn) (i : ClientInfo) :
    List (Conn × ClientInfo) :=
  if l.any (fun p => p.1 == c) then l.map (fun p => if p.1 == c then (c, i) else p)
  else l ++ [(c, i)]

/-- `this.clients.delete(ws)`. -/
def delClient (l : List (Conn × ClientInfo)) (c : Conn) : List (Conn × ClientInfo) :=
  l.filter (fun p => !(p.1 == c))

/-- `Set.prototype.add`: adding an element already present is a no-op. -/
def addMem (l : List Conn) (c : Conn) : List Conn :=
  if l.contains c then l else l ++ [c]

/-- Point update of the room-membership map. -/
def updRoom (rooms : String → List Conn) (r : String) (f : List Conn → List Conn) :
    String → List Conn :=
  fun x => if x = r then f (rooms x) else rooms x

/-- Point update of the per-room history map. -/
def updHist (h : String → RoomStore) (r : String) (f : RoomStore → RoomStore) :
    String → RoomStore :=
  fun x => if x = r then f (h x) else h x

/-- `addMessageToRoom(roomName, message)` as seen by the server: the room
validity check of roomPersistence.js, then the store operation (which
leaves the store unchanged when the storage layer faults, `ok = false`). -/
def addMessageToRoom (h : String → RoomStore) (roomName : String) (m : StoredMsg)
    (now : Nat) (ok : Bool) : String → RoomStore :=
  if isValidRoom roomName then updHist h roomName (fun s => addMessageAttempt ok s m now) else h

/-- `send(ws, obj)`: deliver only when the socket is open. -/
def sendTo (s : ServerState) (c : Conn) (fr : Frame) : List (Conn × Frame) :=
  if c ∈ s.openConns then [(c, fr)] else []

/-- `broadcastToRoom(roomName, obj, excludeWs)`: deliver to every open
member of the room except the excluded connection. -/
def broadcastToRoom (s : ServerState) (roomName : String) (fr : Frame)
    (excludeWs : Option Conn) : List (Conn × Frame) :=
  (s.rooms roomName).filterMap
    (fun c => if some c ≠ excludeWs ∧ c ∈ s.openConns then some (c, fr) else none)

/-- Drop leading whitespace characters from a character list. -/
def dropLeadingWs : List Char → List Char
  | [] => []
  | c :: cs => if c.isWhitespace then dropLeadingWs cs else c :: cs

/-- JavaScript `String.prototype.trim()`: strip leading and trailing
whitespace (modelled over the string's character list so that it reduces
inside the kernel; `Char.isWhitespace` covers space, tab, CR and LF). -/
def jsTrim (s : String) : String :=
  ⟨(dropLeadingWs (dropLeadingWs s.data).reverse).reverse⟩

/-- `validateMessage(msg)` from utils/validateMessage.js (the `valid`
component; shape errors for non-string fields cannot arise in the typed
embedding). -/
def validateMessage : ClientMsg → Bool
  | .join name => !(jsTrim name == "")
  | .joinRoom room => !(jsTrim room == "")
  | .chat text => !(jsTrim text == "")
  | .other _ => true

/-- The `error` strings produced by `validateMessage`. -/
def validationError : ClientMsg → String
  | .join _ => "Valid \x27name\x27 is required for join"
  | .joinRoom _ => "Valid \x27room\x27 is required for join_room"
  | .chat _ => "Non-empty \x27text\x27 is required"
  | .other _ => ""

/-- `handleJoin(ws, msg)` from chatServer.js: trim the name, reject with a
`username_taken` frame when any registered client already holds it,
otherwise register the session with no current room. -/
def handleJoin (s : ServerState) (ws : Conn) (rawName : String) :
    ServerState × List (Conn × Frame) :=
  let name := jsTrim rawName
  if s.clients.any (fun p => p.2.name == name) then
    (s, sendTo s ws (Frame.usernameTaken
      ("Username \x27" ++ name ++ "\x27 is already in use. Please choose another.")))
  else
    ({ s with clients := setClient s.clients ws ⟨name, none⟩ },
      sendTo s ws (Frame.system ("Welcome " ++ name ++ "! Please select a room to join."))
        ++ sendTo s ws (Frame.roomList getAvailableRooms))

/-- `leaveCurrentRoom(ws, clientInfo)` from chatServer.js: remove the
connection from its current room's member set, persist a system leave
notice, broadcast a live `user_left_room` to the remaining members, and
clear `currentRoom`. -/
def leaveCurrentRoom (s : ServerState) (ws : Conn) (info : ClientInfo) (t : Nat)
    (ok : Bool) : ServerState × List (Conn × Frame) :=
  match info.currentRoom with
  | none => (s, [])
  | some room =>
    let s1 := { s with rooms := updRoom s.rooms room (fun l => l.erase ws) }
    let leaveMsg : StoredMsg := ⟨"system", none, info.name ++ " left the room", t⟩
    let s2 := { s1 with histories := addMessageToRoom s1.histories room leaveMsg t ok }
    let out := broadcastToRoom s2 room (Frame.userLeftRoom info.name t room) (some ws)
    ({ s2 with clients := setClient s2.clients ws ⟨info.name, none⟩ }, out)

/-- `handleJoinRoom(ws, msg)` from chatServer.js. -/
def handleJoinRoom (s : ServerState) (ws : Conn) (rawRoom : String) (t : Nat)
    (ok : Bool) : ServerState × List (Conn × Frame) :=
  match lookupClient s.clients ws with
  | none => (s, sendTo s ws (Frame.error ("You must register with a username first")))
  | some info =>
    let roomName := jsTrim rawRoom
    if !(isValidRoom roomName) then
      (s, sendTo s ws (Frame.error ("Invalid room: " ++ roomName)))
    else
      let wasInRoom := info.currentRoom.isSome
      let lv := if info.currentRoom.isSome then leaveCurrentRoom s ws info t ok else (s, [])
      let s1 := lv.1
      let s2 := { s1 with
        clients := setClient s1.clients ws ⟨info.name, some roomName⟩
        rooms := updRoom s1.rooms roomName (fun l => addMem l ws) }
      let history := loadRoomHistory (s2.histories roomName)
      let outHist :=
        if history.length > 0 then sendTo s2 ws (Frame.history history roomName) else []
      let joinMsg : StoredMsg := ⟨"system", none, info.name ++ " joined the room", t⟩
      let s3 := { s2 with histories := addMessageToRoom s2.histories roomName joinMsg t ok }
      let outJoin := broadcastToRoom s3 roomName (Frame.userJoinedRoom info.name t roomName) (some ws)
      let confirmText :=
        if wasInRoom then "switched to room: " ++ roomName else "joined room: " ++ roomName
      (s3, lv.2 ++ outHist ++ outJoin ++ sendTo s3 ws (Frame.system ("You " ++ confirmText)))

/-- `handleChatMessage(ws, msg)` from chatServer.js. -/
def handleChatMessage (s : ServerState) (ws : Conn) (rawText : String) (t : Nat)
    (ok : Bool) : ServerState × List (Conn × Frame) :=
  match lookupClient s.clients ws with
  | none =>
    (s, sendTo s ws (Frame.error ("You must join with a username before sending messages")))
  | some info =>
    match info.currentRoom with
    | none => (s, sendTo s ws (Frame.error ("You must join a room before sending messages")))
    | some room =>
      let text := jsTrim rawText
      if text == "" then (s, [])
      else
        let payload : StoredMsg := ⟨"message", some info.name, text, t⟩
        let s1 := { s with histories := addMessageToRoom s.histories room payload t ok }
        (s1, broadcastToRoom s1 room (Frame.chat info.name text t room) none)

/-- `handleRawMessage(ws, data)` from chatServer.js, after JSON parsing:
validate the frame shape, then dispatch by type (unknown types get an
`error` frame). -/
def handleRawMessage (s : ServerState) (ws : Conn) (m : ClientMsg) (t : Nat)
    (ok : Bool) : ServerState × List (Conn × Frame) :=
  if !(validateMessage m) then
    (s, sendTo s ws (Frame.error (validationError m)))
  else
    match m with
    | .join n => handleJoin s ws n
    | .joinRoom r => handleJoinRoom s ws r t ok
    | .chat txt => handleChatMessage s ws txt t ok
    | .other ty => (s, sendTo s ws (Frame.error ("Unknown message type: " ++ ty)))

/-- `handleConnection(ws)` from chatServer.js: mark the socket open and send
the room catalog. -/
def handleConnection (s : ServerState) (ws : Conn) : ServerState × List (Conn × Frame) :=
  let s1 := { s with openConns := addMem s.openConns ws }
  (s1, sendTo s1 ws (Frame.roomList getAvailableRooms))

/-- `handleClose(ws)` from chatServer.js: the socket is no longer open; if
the connection had a session, leave its room (with notices) and delete the
session. -/
def handleClose (s : ServerState) (ws : Conn) (t : Nat) (ok : Bool) :
    ServerState × List (Conn × Frame) :=
  let s0 := { s with openConns := s.openConns.erase ws }
  match lookupClient s0.clients ws with
  | none => (s0, [])
  | some info =>
    let lv := if info.currentRoom.isSome then leaveCurrentRoom s0 ws info t ok else (s0, [])
    ({ lv.1 with clients := delClient lv.1.clients ws }, lv.2)

/-- Transport events delivered to the dispatcher, in arrival order.  Frame
and close events carry the `Date.now()` value `t` observed while handling
them and the storage-health flag `ok` for any `addMessageToRoom` they
perform. -/
inductive Event where
  | connect (c : Conn)
  | frame (c : Conn) (m : ClientMsg) (t : Nat) (ok : Bool)
  | close (c : Conn) (t : Nat) (ok : Bool)
deriving DecidableEq, Repr

/-- One dispatcher step. -/
def stepEvent (s : ServerState) : Event → ServerState × List (Conn × Frame)
  | .connect c => handleConnection s c
  | .frame c m t ok => handleRawMessage s c m t ok
  | .close c t ok => handleClose s c t ok

/-- Process a list of events in order, concatenating the delivered frames. -/
def processEvents (s : ServerState) : List Event → ServerState × List (Conn × Frame)
  | [] => (s, [])
  | e :: rest =>
    let r1 := stepEvent s e
    let r2 := processEvents r1.1 rest
    (r2.1, r1.2 ++ r2.2)

/-- The server state right after the constructor of `ChatServer` ran: no
clients, every room-member set empty, no persisted batches, no open
sockets. -/
def initState : ServerState :=
  { clients := []
    rooms := fun _ => []
    histories := fun _ => RoomStore.empty
    openConns := [] }

/-! ## Invariant predicates and statement harness -/

/-- Well-formedness of one batch document, as maintained by
`addMessageToRoom`: the `messageCount` field counts the embedded messages,
a batch never exceeds `MESSAGES_PER_BATCH` messages, `startTime` is the
timestamp of the first message and `endTime` the timestamp of the last
(most recently appended) one. -/
def BatchWf (b : Batch) : Prop :=
  b.messageCount = b.messages.length ∧
  b.messages.length ≤ MESSAGES_PER_BATCH ∧
  b.messages.head?.map (·.timestamp) = some b.startTime ∧
  b.messages.getLast?.map (·.timestamp) = some b.endTime

/-- Well-formedness of a room's sub-collection: every batch is well formed,
document ids are distinct and below the fresh-id counter, and the total
stored count respects the retention ceiling. -/
def StoreWf (s : RoomStore) : Prop :=
  (∀ b ∈ s.batches, BatchWf b) ∧
  (s.batches.map (·.bid)).Nodup ∧
  (∀ b ∈ s.batches, b.bid < s.nextId) ∧
  totalCount s.batches ≤ MAX_MESSAGES_PER_ROOM

/-- All stored messages of a room in batch-list order. -/
def flatMessages (s : RoomStore) : List StoredMsg :=
  (s.batches.map (·.messages)).flatten

/-- Number of messages actually stored for a room. -/
def storedCount (s : RoomStore) : Nat := (flatMessages s).length

/-- Temporal well-formedness of a room's sub-collection, maintained as long
as appends arrive with non-decreasing timestamps: the flattened messages
have non-decreasing timestamps and are bounded by `t`, the batch list is
already in `startTime` order, and only the newest batch can be non-full. -/
def StoreOrdered (t : Nat) (s : RoomStore) : Prop :=
  StoreWf s ∧
  List.Sorted (· ≤ ·) ((flatMessages s).map (·.timestamp)) ∧
  (∀ x ∈ (flatMessages s).map (·.timestamp), x ≤ t) ∧
  List.Sorted (fun a b => a.startTime ≤ b.startTime) s.batches ∧
  (∀ b ∈ s.batches.dropLast, b.messageCount = MESSAGES_PER_BATCH)

/-- A sequence of sequential `addMessageToRoom` calls on one room, each
carrying the message and the `Date.now()` value in effect for it. -/
def appendAll (ms : List (StoredMsg × Nat)) (s : RoomStore) : RoomStore :=
  ms.foldl (fun st p => addMessage st p.1 p.2) s

/-- The event trace refuting name-uniqueness permanence: connection 1
registers "ann", re-registers as "bob" (the rename hole of `handleJoin`),
then connection 2 successfully claims "ann" although connection 1 is still
live. -/
def traceRename : List Event :=
  [Event.connect 1,
   Event.frame 1 (ClientMsg.join "ann") 1 true,
   Event.frame 1 (ClientMsg.join "bob") 2 true,
   Event.connect 2,
   Event.frame 2 (ClientMsg.join "ann") 3 true]

/-- The event trace exhibiting a connection in two member sets: connection
1 registers, joins "general", re-registers under a fresh name (which resets
`currentRoom` to null without leaving the room), then joins "random". -/
def traceTwoRooms : List Event :=
  [Event.connect 1,
   Event.frame 1 (ClientMsg.join "ann") 1 true,
   Event.frame 1 (ClientMsg.joinRoom "general") 2 true,
   Event.frame 1 (ClientMsg.join "bob") 3 true,
   Event.frame 1 (ClientMsg.joinRoom "random") 4 true]

/-- Extension of `traceTwoRooms`: connection 2 registers, joins "general"
and sends a chat there, which is delivered to connection 1 although
connection 1's current room is "random". -/
def traceCrossRoom : List Event :=
  traceTwoRooms ++
  [Event.connect 2,
   Event.frame 2 (ClientMsg.join "carl") 5 true,
   Event.frame 2 (ClientMsg.joinRoom "general") 6 true,
   Event.frame 2 (ClientMsg.chat "hi") 7 true]

/-! ## Store lemmas -/

theorem findAppendableBatch_aux {f : Option Batch → Batch → Option Batch}
    (hf : f = fun acc b =>
      match acc with
      | none => some b
      | some a => if a.endTime < b.endTime then some b else some a) :
    ∀ (l : List Batch) (acc : Option Batch) (b : Batch),
      l.foldl f acc = some b → acc = some b ∨ b ∈ l := by
  intro l
  induction l with
  | nil => intro acc b h; exact Or.inl h
  | cons c rest ih =>
    intro acc b h
    rcases ih (f acc c) b h with h1 | h1
    · subst hf
      cases acc with
      | none =>
        simp at h1
        exact Or.inr (by simp [h1])
      | some a =>
        by_cases he : a.endTime < c.endTime
        · simp [he] at h1
          exact Or.inr (by simp [h1])
        · simp [he] at h1
          exact Or.inl (by simp [h1])
    · exact Or.inr (List.mem_cons_of_mem _ h1)

theorem findAppendableBatch_spec {bs : List Batch} {b : Batch}
    (h : findAppendableBatch bs = some b) :
    b ∈ bs ∧ b.messageCount < MESSAGES_PER_BATCH := by
  unfold findAppendableBatch at h
  have := findAppendableBatch_aux rfl _ _ _ h
  rcases this with h1 | h1
  · cases h1
  · have := List.mem_filter.mp h1
    exact ⟨this.1, by simpa using this.2⟩

theorem contains_singleton (x y : Nat) : ([x].contains y) = (y == x) := by
  simp only [List.contains_cons, List.contains_nil, Bool.or_false]

theorem totalCount_append (l l' : List Batch) :
    totalCount (l ++ l') = totalCount l + totalCount l' := by
  simp [totalCount]

theorem totalCount_sortBatches (bs : List Batch) :
    totalCount (sortBatches bs) = totalCount bs := by
  unfold totalCount sortBatches
  exact ((List.perm_insertionSort _ bs).map _).sum_eq

theorem totalCount_update {l : List Batch} {a : Batch} (u : Batch)
    (ha : a ∈ l) (hnd : (l.map (·.bid)).Nodup) :
    totalCount (l.map (fun b => if b.bid = a.bid then u else b)) + a.messageCount
      = totalCount l + u.messageCount := by
  induction l with
  | nil => cases ha
  | cons c rest ih =>
    simp only [List.map_cons, List.nodup_cons] at hnd
    by_cases hc : c.bid = a.bid
    · have hac : a = c := by
        rcases List.mem_cons.mp ha with h | h
        · exact h
        · exact absurd (List.mem_map.mpr ⟨a, h, hc.symm⟩) hnd.1
      have hrest : rest.map (fun b => if b.bid = a.bid then u else b) = rest := by
        conv_rhs => rw [← List.map_id rest]
        apply List.map_congr_left
        intro b hb
        have hne : ¬(b.bid = a.bid) :=
          fun he => hnd.1 (List.mem_map.mpr ⟨b, hb, he.trans hc.symm⟩)
        simp [hne]
      simp only [List.map_cons, if_pos hc, hrest]
      simp only [totalCount, List.map_cons, List.sum_cons, hac]
      omega
    · have ha2 : a ∈ rest := by
        rcases List.mem_cons.mp ha with h | h
        · exact absurd (congrArg Batch.bid h).symm hc
        · exact h
      have hrec := ih ha2 hnd.2
      simp only [List.map_cons, if_neg hc]
      simp only [totalCount, List.map_cons, List.sum_cons] at hrec ⊢
      omega

theorem totalCount_filter_out {l : List Batch} {a : Batch}
    (ha : a ∈ l) (hnd : (l.map (·.bid)).Nodup) :
    totalCount (l.filter (fun b => !([a.bid].contains b.bid))) + a.messageCount
      = totalCount l := by
  have hpred : (fun b : Batch => !([a.bid].contains b.bid))
      = (fun b : Batch => !(b.bid == a.bid)) := by
    funext b
    rw [contains_singleton]
  rw [hpred]
  induction l with
  | nil => cases ha
  | cons c rest ih =>
    simp only [List.map_cons, List.nodup_cons] at hnd
    by_cases hc : c.bid = a.bid
    · have hac : a = c := by
        rcases List.mem_cons.mp ha with h | h
        · exact h
        · exact absurd (List.mem_map.mpr ⟨a, h, hc.symm⟩) hnd.1
      have hrest : rest.filter (fun b => !(b.bid == a.bid)) = rest := by
        apply List.filter_eq_self.mpr
        intro b hb
        have hne : ¬(b.bid = a.bid) :=
          fun he => hnd.1 (List.mem_map.mpr ⟨b, hb, he.trans hc.symm⟩)
        simp [hne]
      rw [List.filter_cons]
      simp only [hc, beq_self_eq_true, Bool.not_true, Bool.false_eq_true, if_false, hrest]
      simp only [totalCount, List.map_cons, List.sum_cons, hac]
      omega
    · have ha2 : a ∈ rest := by
        rcases List.mem_cons.mp ha with h | h
        · exact absurd (congrArg Batch.bid h).symm hc
        · exact h
      have hrec := ih ha2 hnd.2
      rw [List.filter_cons]
      have hcc : (c.bid == a.bid) = false := by simp [hc]
      simp only [hcc, Bool.not_false, if_true]
      simp only [totalCount, List.map_cons, List.sum_cons] at hrec ⊢
      omega

theorem pushMessage_totalCount {s : RoomStore} (m : StoredMsg) (now : Nat)
    (hwf : ∀ b ∈ s.batches, BatchWf b) (hnd : (s.batches.map (·.bid)).Nodup) :
    totalCount (pushMessage s m now).batches = totalCount s.batches + 1 := by
  unfold pushMessage
  cases hf : findAppendableBatch s.batches with
  | none =>
    simp only [totalCount_append]
    simp [totalCount]
  | some batch =>
    obtain ⟨hmem, _⟩ := findAppendableBatch_spec hf
    have hcnt := (hwf batch hmem).1
    simp only
    have := @totalCount_update s.batches batch
      ({ batch with
          messages := batch.messages ++ [⟨m.mtype, m.sender, m.text, effectiveTs m now⟩]
          endTime := effectiveTs m now
          messageCount := batch.messages.length + 1 }) hmem hnd
    simp only at this
    omega

theorem pushMessage_wf {s : RoomStore} (m : StoredMsg) (now : Nat)
    (hwf : ∀ b ∈ s.batches, BatchWf b) (hnd : (s.batches.map (·.bid)).Nodup)
    (hid : ∀ b ∈ s.batches, b.bid < s.nextId) :
    (∀ b ∈ (pushMessage s m now).batches, BatchWf b) ∧
    ((pushMessage s m now).batches.map (·.bid)).Nodup ∧
    (∀ b ∈ (pushMessage s m now).batches, b.bid < (pushMessage s m now).nextId) := by
  unfold pushMessage
  cases hf : findAppendableBatch s.batches with
  | none =>
    refine ⟨?_, ?_, ?_⟩
    · intro b hb
      rcases List.mem_append.mp hb with h | h
      · exact hwf b h
      · simp at h
        subst h
        refine ⟨rfl, ?_, rfl, rfl⟩
        simp [MESSAGES_PER_BATCH]
    · simp only [List.map_append]
      rw [List.nodup_append]
      refine ⟨hnd, List.nodup_singleton _, ?_⟩
      intro x hx
      simp only [List.map_cons, List.map_nil, List.mem_singleton]
      rcases List.mem_map.mp hx with ⟨b, hb, rfl⟩
      exact Nat.ne_of_lt (hid b hb)
    · intro b hb
      rcases List.mem_append.mp hb with h | h
      · exact Nat.lt_succ_of_lt (hid b h)
      · simp at h
        subst h
        exact Nat.lt_succ_self _
  | some batch =>
    obtain ⟨hmem, hlt⟩ := findAppendableBatch_spec hf
    obtain ⟨hcnt, hlen, hhead, hlast⟩ := hwf batch hmem
    simp only
    refine ⟨?_, ?_, ?_⟩
    · intro b hb
      rcases List.mem_map.mp hb with ⟨b0, hb0, rfl⟩
      by_cases hbid : b0.bid = batch.bid
      · simp only [if_pos hbid]
        have hne : batch.messages ≠ [] := by
          intro h
          rw [h] at hhead
          simp at hhead
        refine ⟨by simp, ?_, ?_, ?_⟩
        · simp
          omega
        · rw [List.head?_append_of_ne_nil _ hne]
          exact hhead
        · simp
      · simp only [if_neg hbid]
        exact hwf b0 hb0
    · have hbid : (List.map (fun b =>
          if b.bid = batch.bid then
            { bid := batch.bid,
              messages := batch.messages ++
                [{ mtype := m.mtype, sender := m.sender, text := m.text,
                   timestamp := effectiveTs m now }],
              startTime := batch.startTime, endTime := effectiveTs m now,
              messageCount := batch.messages.length + 1 }
          else b) s.batches).map (·.bid) = s.batches.map (·.bid) := by
        rw [List.map_map]
        apply List.map_congr_left
        intro b _
        by_cases hb : b.bid = batch.bid
        · simp [hb]
        · simp [hb]
      rw [hbid]
      exact hnd
    · intro b hb
      rcases List.mem_map.mp hb with ⟨b0, hb0, rfl⟩
      by_cases hbid : b0.bid = batch.bid
      · simp only [if_pos hbid]
        exact hid batch hmem
      · simp only [if_neg hbid]
        exact hid b0 hb0

theorem selectToDelete_nonpos {r : Int} (l : List Batch) (h : r ≤ 0) :
    selectToDelete r l = [] := by
  cases l with
  | nil => rfl
  | cons b bs => simp [selectToDelete, h]

theorem selectToDelete_prefix (r : Int) (l : List Batch) :
    ∃ k, selectToDelete r l = l.take k := by
  induction l generalizing r with
  | nil => exact ⟨0, rfl⟩
  | cons b bs ih =>
    by_cases h : r ≤ 0
    · exact ⟨0, by simp [selectToDelete, h]⟩
    · obtain ⟨k, hk⟩ := ih (r - (b.messageCount : Int))
      exact ⟨k + 1, by simp [selectToDelete, h, hk]⟩

theorem selectToDelete_single {r : Int} {b : Batch} (rest : List Batch)
    (h0 : 0 < r) (h1 : r ≤ (b.messageCount : Int)) :
    selectToDelete r (b :: rest) = [b] := by
  have : ¬(r ≤ 0) := by omega
  simp only [selectToDelete, this, if_false]
  rw [selectToDelete_nonpos rest (by omega)]

theorem batchWf_count_pos {b : Batch} (h : BatchWf b) :
    1 ≤ b.messageCount ∧ b.messageCount ≤ MESSAGES_PER_BATCH := by
  obtain ⟨hcnt, hlen, hhead, _⟩ := h
  constructor
  · rw [hcnt]
    cases hm : b.messages with
    | nil => rw [hm] at hhead; simp at hhead
    | cons x xs => simp [hm]
  · omega

theorem cleanupOldMessages_le {s : RoomStore}
    (h : totalCount s.batches ≤ MAX_MESSAGES_PER_ROOM) :
    cleanupOldMessages s = s := by
  have hc : totalCount (sortBatches s.batches) ≤ MAX_MESSAGES_PER_ROOM := by
    rw [totalCount_sortBatches]
    exact h
  simp only [cleanupOldMessages]
  rw [if_pos hc]

theorem cleanupOldMessages_101 {s : RoomStore}
    (hwf : ∀ b ∈ s.batches, BatchWf b) (hnd : (s.batches.map (·.bid)).Nodup)
    (ht : totalCount s.batches = MAX_MESSAGES_PER_ROOM + 1) :
    MAX_MESSAGES_PER_ROOM - MESSAGES_PER_BATCH + 1 ≤ totalCount (cleanupOldMessages s).batches ∧
    totalCount (cleanupOldMessages s).batches ≤ MAX_MESSAGES_PER_ROOM := by
  have hts : totalCount (sortBatches s.batches) = MAX_MESSAGES_PER_ROOM + 1 := by
    rw [totalCount_sortBatches]
    exact ht
  have hc : ¬(totalCount (sortBatches s.batches) ≤ MAX_MESSAGES_PER_ROOM) := by omega
  simp only [cleanupOldMessages]
  rw [if_neg hc]
  cases hs : sortBatches s.batches with
  | nil =>
    exfalso
    rw [hs] at hts
    simp [totalCount, MAX_MESSAGES_PER_ROOM] at hts
  | cons b0 rest =>
    have hb0 : b0 ∈ s.batches := by
      have hmem : b0 ∈ sortBatches s.batches := by
        rw [hs]
        exact List.mem_cons_self _ _
      exact (List.perm_insertionSort _ s.batches).subset hmem
    have hb0wf := batchWf_count_pos (hwf b0 hb0)
    have hts2 : totalCount (b0 :: rest) = MAX_MESSAGES_PER_ROOM + 1 := by
      rw [← hs]
      exact hts
    rw [hts2]
    have hsel : selectToDelete (((MAX_MESSAGES_PER_ROOM + 1 : Nat) : Int) - ((MAX_MESSAGES_PER_ROOM : Nat) : Int)) (b0 :: rest) = [b0] := by
      apply selectToDelete_single
      · omega
      · have := hb0wf.1
        omega
    rw [hsel]
    simp only [List.map_cons, List.map_nil]
    have hfo := totalCount_filter_out hb0 hnd
    rw [ht] at hfo
    have h1 := hb0wf.1
    have h2 := hb0wf.2
    simp only [MAX_MESSAGES_PER_ROOM, MESSAGES_PER_BATCH] at *
    omega

theorem cleanupOldMessages_sublist (s : RoomStore) :
    (cleanupOldMessages s).batches.Sublist s.batches ∧
    (cleanupOldMessages s).nextId = s.nextId := by
  simp only [cleanupOldMessages]
  by_cases h : totalCount (sortBatches s.batches) ≤ MAX_MESSAGES_PER_ROOM
  · rw [if_pos h]
    exact ⟨List.Sublist.refl _, rfl⟩
  · rw [if_neg h]
    exact ⟨List.filter_sublist _, rfl⟩

theorem addMessage_wf {s : RoomStore} (m : StoredMsg) (now : Nat) (hwf : StoreWf s) :
    StoreWf (addMessage s m now) ∧
    (totalCount (addMessage s m now).batches = totalCount s.batches + 1 ∨
      (totalCount s.batches = MAX_MESSAGES_PER_ROOM ∧
        MAX_MESSAGES_PER_ROOM - MESSAGES_PER_BATCH + 1 ≤ totalCount (addMessage s m now).batches)) := by
  obtain ⟨hb, hnd, hid, hle⟩ := hwf
  have htot := pushMessage_totalCount m now hb hnd
  obtain ⟨hb2, hnd2, hid2⟩ := pushMessage_wf m now hb hnd hid
  by_cases hcap : totalCount s.batches + 1 ≤ MAX_MESSAGES_PER_ROOM
  · have hid' : cleanupOldMessages (pushMessage s m now) = pushMessage s m now :=
      cleanupOldMessages_le (by omega)
    unfold addMessage
    rw [hid']
    exact ⟨⟨hb2, hnd2, hid2, by omega⟩, Or.inl (by omega)⟩
  · have h100 : totalCount s.batches = MAX_MESSAGES_PER_ROOM := by omega
    have h101 : totalCount (pushMessage s m now).batches = MAX_MESSAGES_PER_ROOM + 1 := by omega
    have hbounds := cleanupOldMessages_101 hb2 hnd2 h101
    obtain ⟨hsub, hnext⟩ := cleanupOldMessages_sublist (pushMessage s m now)
    unfold addMessage
    refine ⟨⟨?_, ?_, ?_, hbounds.2⟩, Or.inr ⟨h100, hbounds.1⟩⟩
    · intro b hbm
      exact hb2 b (hsub.subset hbm)
    · exact (hnd2.sublist (hsub.map _))
    · intro b hbm
      rw [hnext]
      exact hid2 b (hsub.subset hbm)

theorem appendAll_wf_lower (ms : List (StoredMsg × Nat)) :
    ∀ s : RoomStore, StoreWf s →
      StoreWf (appendAll ms s) ∧
      min (totalCount s.batches + ms.length) (MAX_MESSAGES_PER_ROOM - MESSAGES_PER_BATCH + 1)
        ≤ totalCount (appendAll ms s).batches := by
  induction ms with
  | nil =>
    intro s hwf
    refine ⟨hwf, ?_⟩
    simp only [appendAll, List.foldl_nil, List.length_nil, Nat.add_zero]
    omega
  | cons p rest ih =>
    intro s hwf
    have hstep := addMessage_wf p.1 p.2 hwf
    have hl : appendAll (p :: rest) s = appendAll rest (addMessage s p.1 p.2) := rfl
    rw [hl]
    obtain ⟨hwf2, hcases⟩ := hstep
    obtain ⟨hwff, hmin⟩ := ih (addMessage s p.1 p.2) hwf2
    refine ⟨hwff, ?_⟩
    rcases hcases with h | h
    · rw [h] at hmin
      simp only [List.length_cons] at *
      omega
    · simp only [List.length_cons] at *
      have := hwf2.2.2.2
      omega

theorem storedCount_eq_totalCount {s : RoomStore} (hwf : ∀ b ∈ s.batches, BatchWf b) :
    storedCount s = totalCount s.batches := by
  unfold storedCount flatMessages totalCount
  rw [List.length_flatten, List.map_map]
  congr 1
  apply List.map_congr_left
  intro b hbm
  exact ((hwf b hbm).1).symm


theorem storeWf_empty : StoreWf RoomStore.empty := by
  refine ⟨?_, ?_, ?_, ?_⟩
  · intro b hb
    cases hb
  · simp [RoomStore.empty]
  · intro b hb
    cases hb
  · simp [RoomStore.empty, totalCount, MAX_MESSAGES_PER_ROOM]

/-- C3: after a sequence of appends to one room whose length exceeds the
retention ceiling (100) by more than one batch capacity (50), the stored
message count is at most the ceiling and at least ceiling minus batch
capacity plus one (51); moreover retention cleanup only ever deletes whole
batches, taken from the oldest (`startTime`-sorted) end. -/
theorem retention_bound_after_appends (ms : List (StoredMsg × Nat))
    (h : MAX_MESSAGES_PER_ROOM + MESSAGES_PER_BATCH < ms.length) :
    (MAX_MESSAGES_PER_ROOM - MESSAGES_PER_BATCH + 1 ≤ storedCount (appendAll ms RoomStore.empty) ∧
      storedCount (appendAll ms RoomStore.empty) ≤ MAX_MESSAGES_PER_ROOM) ∧
    (∀ s : RoomStore, ∃ k, (cleanupOldMessages s).batches =
        s.batches.filter (fun b => !((((sortBatches s.batches).take k).map (·.bid)).contains b.bid))) := by
  obtain ⟨hwf, hmin⟩ := appendAll_wf_lower ms RoomStore.empty storeWf_empty
  constructor
  · rw [storedCount_eq_totalCount hwf.1]
    have hz : totalCount RoomStore.empty.batches = 0 := rfl
    rw [hz] at hmin
    refine ⟨?_, hwf.2.2.2⟩
    simp only [MAX_MESSAGES_PER_ROOM, MESSAGES_PER_BATCH] at *
    omega
  · intro s
    by_cases hle : totalCount (sortBatches s.batches) ≤ MAX_MESSAGES_PER_ROOM
    · refine ⟨0, ?_⟩
      have h1 : cleanupOldMessages s = s := by
        apply cleanupOldMessages_le
        rw [← totalCount_sortBatches]
        exact hle
      rw [h1]
      symm
      apply List.filter_eq_self.mpr
      intro a _
      rfl
    · obtain ⟨k, hk⟩ := selectToDelete_prefix
        ((totalCount (sortBatches s.batches) : Int) - (MAX_MESSAGES_PER_ROOM : Int))
        (sortBatches s.batches)
      refine ⟨k, ?_⟩
      simp only [cleanupOldMessages]
      rw [if_neg hle, hk]

theorem retention_bound_after_appends_witness :
    MAX_MESSAGES_PER_ROOM + MESSAGES_PER_BATCH
        < (List.replicate 151 ((⟨"message", some "a", "hi", 1⟩ : StoredMsg), 1)).length ∧
    ((MAX_MESSAGES_PER_ROOM - MESSAGES_PER_BATCH + 1 ≤
        storedCount (appendAll (List.replicate 151 ((⟨"message", some "a", "hi", 1⟩ : StoredMsg), 1)) RoomStore.empty) ∧
      storedCount (appendAll (List.replicate 151 ((⟨"message", some "a", "hi", 1⟩ : StoredMsg), 1)) RoomStore.empty)
        ≤ MAX_MESSAGES_PER_ROOM) ∧
    (∀ s : RoomStore, ∃ k, (cleanupOldMessages s).batches =
        s.batches.filter (fun b => !((((sortBatches s.batches).take k).map (·.bid)).contains b.bid)))) :=
  ⟨by simp [MAX_MESSAGES_PER_ROOM, MESSAGES_PER_BATCH],
   retention_bound_after_appends _ (by simp [MAX_MESSAGES_PER_ROOM, MESSAGES_PER_BATCH])⟩

/-- C10: every batch produced or updated by `addMessageToRoom` satisfies,
after each append from an initially empty room: `messageCount` equals the
length of `messages`, the batch holds at most `MESSAGES_PER_BATCH` (50)
messages, `startTime` is the timestamp of its first message and `endTime`
the timestamp of its most recently appended message. -/
theorem batch_fields_wf (ms : List (StoredMsg × Nat)) (b : Batch)
    (hb : b ∈ (appendAll ms RoomStore.empty).batches) :
    b.messageCount = b.messages.length ∧
    b.messages.length ≤ MESSAGES_PER_BATCH ∧
    b.messages.head?.map (·.timestamp) = some b.startTime ∧
    b.messages.getLast?.map (·.timestamp) = some b.endTime :=
  (appendAll_wf_lower ms RoomStore.empty storeWf_empty).1.1 b hb

theorem batch_fields_wf_witness :
    ((⟨0, [⟨"message", some "ann", "hi", 5⟩], 5, 5, 1⟩ : Batch)
        ∈ (appendAll [((⟨"message", some "ann", "hi", 5⟩ : StoredMsg), 5)] RoomStore.empty).batches) ∧
    ((⟨0, [⟨"message", some "ann", "hi", 5⟩], 5, 5, 1⟩ : Batch).messageCount
        = (⟨0, [⟨"message", some "ann", "hi", 5⟩], 5, 5, 1⟩ : Batch).messages.length ∧
      (⟨0, [⟨"message", some "ann", "hi", 5⟩], 5, 5, 1⟩ : Batch).messages.length ≤ MESSAGES_PER_BATCH ∧
      (⟨0, [⟨"message", some "ann", "hi", 5⟩], 5, 5, 1⟩ : Batch).messages.head?.map (·.timestamp)
        = some (⟨0, [⟨"message", some "ann", "hi", 5⟩], 5, 5, 1⟩ : Batch).startTime ∧
      (⟨0, [⟨"message", some "ann", "hi", 5⟩], 5, 5, 1⟩ : Batch).messages.getLast?.map (·.timestamp)
        = some (⟨0, [⟨"message", some "ann", "hi", 5⟩], 5, 5, 1⟩ : Batch).endTime) :=
  ⟨by decide, batch_fields_wf [((⟨"message", some "ann", "hi", 5⟩ : StoredMsg), 5)] _ (by decide)⟩



theorem findAppendableBatch_nil : findAppendableBatch [] = none := rfl

theorem findAppendableBatch_of_onlyLast {l : List Batch} {a : Batch}
    (hfull : ∀ b ∈ (l ++ [a]).dropLast, b.messageCount = MESSAGES_PER_BATCH) :
    findAppendableBatch (l ++ [a])
      = if a.messageCount < MESSAGES_PER_BATCH then some a else none := by
  have hl : ∀ b ∈ l, b.messageCount = MESSAGES_PER_BATCH := by
    intro b hb
    apply hfull
    rw [List.dropLast_concat]
    exact hb
  unfold findAppendableBatch
  rw [List.filter_append]
  have hfl : l.filter (fun b => b.messageCount < MESSAGES_PER_BATCH) = [] := by
    rw [List.filter_eq_nil_iff]
    intro b hb
    simp [hl b hb]
  rw [hfl]
  by_cases hc : a.messageCount < MESSAGES_PER_BATCH
  · simp [hc]
  · simp [hc]

theorem update_last_eq {l : List Batch} {a : Batch} (u : Batch)
    (hnd : ((l ++ [a]).map (·.bid)).Nodup) :
    (l ++ [a]).map (fun b => if b.bid = a.bid then u else b) = l ++ [u] := by
  rw [List.map_append]
  have hnotin : a.bid ∉ l.map (·.bid) := by
    rw [List.map_append] at hnd
    intro hmem
    exact (List.disjoint_of_nodup_append hnd) hmem (by simp)
  congr 1
  · conv_rhs => rw [← List.map_id l]
    apply List.map_congr_left
    intro b hb
    have hne : ¬(b.bid = a.bid) := by
      intro he
      exact hnotin (he ▸ List.mem_map.mpr ⟨b, hb, rfl⟩)
    simp [hne]
  · simp

theorem flatMessages_pushMessage {s : RoomStore} (m : StoredMsg) (now : Nat)
    (hnd : (s.batches.map (·.bid)).Nodup)
    (hfull : ∀ b ∈ s.batches.dropLast, b.messageCount = MESSAGES_PER_BATCH) :
    flatMessages (pushMessage s m now)
      = flatMessages s ++ [⟨m.mtype, m.sender, m.text, effectiveTs m now⟩] := by
  rcases s.batches.eq_nil_or_concat with hnil | ⟨l, a, hla⟩
  · simp only [pushMessage, hnil, findAppendableBatch_nil]
    simp [flatMessages, hnil]
  · rw [List.concat_eq_append] at hla
    have hfull2 : ∀ b ∈ l, b.messageCount = MESSAGES_PER_BATCH := by
      intro b hb
      apply hfull
      rw [hla, List.dropLast_concat]
      exact hb
    have hfa : findAppendableBatch s.batches
        = if a.messageCount < MESSAGES_PER_BATCH then some a else none := by
      rw [hla]
      apply findAppendableBatch_of_onlyLast
      rw [← hla]
      exact hfull
    by_cases hc : a.messageCount < MESSAGES_PER_BATCH
    · rw [if_pos hc] at hfa
      simp only [pushMessage, hfa]
      have hup := update_last_eq
        ({ a with
            messages := a.messages ++ [⟨m.mtype, m.sender, m.text, effectiveTs m now⟩]
            endTime := effectiveTs m now
            messageCount := a.messages.length + 1 })
        (hla ▸ hnd)
      rw [show s.batches.map _ = _ from hla ▸ hup]
      simp [flatMessages, hla, List.map_append, List.flatten_append]
    · rw [if_neg hc] at hfa
      simp only [pushMessage, hfa]
      simp [flatMessages, List.map_append, List.flatten_append]

theorem pushMessage_shape {s : RoomStore} (m : StoredMsg) (now : Nat)
    (hwf : ∀ b ∈ s.batches, BatchWf b)
    (hnd : (s.batches.map (·.bid)).Nodup)
    (hfull : ∀ b ∈ s.batches.dropLast, b.messageCount = MESSAGES_PER_BATCH) :
    ((pushMessage s m now).batches
        = s.batches ++ [⟨s.nextId, [⟨m.mtype, m.sender, m.text, effectiveTs m now⟩],
            effectiveTs m now, effectiveTs m now, 1⟩]
      ∧ (∀ b ∈ s.batches, b.messageCount = MESSAGES_PER_BATCH)) ∨
    (∃ l a, s.batches = l ++ [a] ∧ a.messageCount < MESSAGES_PER_BATCH ∧
      (pushMessage s m now).batches = l ++
        [{ a with
            messages := a.messages ++ [⟨m.mtype, m.sender, m.text, effectiveTs m now⟩]
            endTime := effectiveTs m now
            messageCount := a.messages.length + 1 }]) := by
  rcases s.batches.eq_nil_or_concat with hnil | ⟨l, a, hla⟩
  · left
    constructor
    · simp only [pushMessage, hnil, findAppendableBatch_nil]
    · intro b hb
      rw [hnil] at hb
      cases hb
  · rw [List.concat_eq_append] at hla
    have hfull2 : ∀ b ∈ l, b.messageCount = MESSAGES_PER_BATCH := by
      intro b hb
      apply hfull
      rw [hla, List.dropLast_concat]
      exact hb
    have hfa : findAppendableBatch s.batches
        = if a.messageCount < MESSAGES_PER_BATCH then some a else none := by
      rw [hla]
      apply findAppendableBatch_of_onlyLast
      rw [← hla]
      exact hfull
    by_cases hc : a.messageCount < MESSAGES_PER_BATCH
    · right
      refine ⟨l, a, hla, hc, ?_⟩
      rw [if_pos hc] at hfa
      simp only [pushMessage, hfa]
      have hup := update_last_eq
        ({ a with
            messages := a.messages ++ [⟨m.mtype, m.sender, m.text, effectiveTs m now⟩]
            endTime := effectiveTs m now
            messageCount := a.messages.length + 1 })
        (hla ▸ hnd)
      rw [show s.batches.map _ = _ from hla ▸ hup]
    · left
      rw [if_neg hc] at hfa
      constructor
      · simp only [pushMessage, hfa]
      · intro b hb
        rw [hla] at hb
        rcases List.mem_append.mp hb with h | h
        · exact hfull2 b h
        · simp at h
          subst h
          have hposb := batchWf_count_pos (hwf b (by rw [hla]; simp))
          omega

theorem filter_out_head {b0 : Batch} {rest : List Batch}
    (hnd : ((b0 :: rest).map (·.bid)).Nodup) :
    (b0 :: rest).filter (fun b => !([b0.bid].contains b.bid)) = rest := by
  simp only [List.map_cons, List.nodup_cons] at hnd
  rw [List.filter_cons]
  have h0 : ([b0.bid].contains b0.bid) = true := by
    rw [contains_singleton]
    simp
  simp only [h0, Bool.not_true, Bool.false_eq_true, if_false]
  apply List.filter_eq_self.mpr
  intro b hb
  have hne : ¬(b.bid = b0.bid) :=
    fun he => hnd.1 (List.mem_map.mpr ⟨b, hb, he⟩)
  rw [contains_singleton]
  simp [hne]

theorem cleanupOldMessages_sorted_101 {s : RoomStore}
    (hsort : List.Sorted (fun a b => a.startTime ≤ b.startTime) s.batches)
    (hnd : (s.batches.map (·.bid)).Nodup)
    (hwf : ∀ b ∈ s.batches, BatchWf b)
    (h101 : totalCount s.batches = MAX_MESSAGES_PER_ROOM + 1) :
    ∃ b0 rest, s.batches = b0 :: rest ∧
      (cleanupOldMessages s).batches = rest ∧ (cleanupOldMessages s).nextId = s.nextId := by
  have hss : sortBatches s.batches = s.batches := hsort.insertionSort_eq
  cases hb : s.batches with
  | nil =>
    exfalso
    rw [hb] at h101
    simp [totalCount, MAX_MESSAGES_PER_ROOM] at h101
  | cons b0 rest =>
    refine ⟨b0, rest, rfl, ?_, (cleanupOldMessages_sublist s).2⟩
    have hcond : ¬(totalCount (sortBatches s.batches) ≤ MAX_MESSAGES_PER_ROOM) := by
      rw [totalCount_sortBatches]
      omega
    simp only [cleanupOldMessages]
    rw [if_neg hcond, hss, hb]
    have hb0wf := batchWf_count_pos (hwf b0 (by rw [hb]; exact List.mem_cons_self _ _))
    have h101b : totalCount (b0 :: rest) = MAX_MESSAGES_PER_ROOM + 1 := by
      rw [← hb]
      exact h101
    have hts : totalCount (sortBatches s.batches) = MAX_MESSAGES_PER_ROOM + 1 := by
      rw [totalCount_sortBatches]
      exact h101
    rw [hss, hb] at hts
    rw [hts]
    have hsel : selectToDelete (((MAX_MESSAGES_PER_ROOM + 1 : Nat) : Int)
        - ((MAX_MESSAGES_PER_ROOM : Nat) : Int)) (b0 :: rest) = [b0] := by
      apply selectToDelete_single
      · omega
      · have := hb0wf.1
        omega
    rw [hsel]
    simp only [List.map_cons, List.map_nil]
    exact filter_out_head (hb ▸ hnd)

theorem mem_dropLast_cons {b b0 : Batch} {rest : List Batch}
    (h : b ∈ rest.dropLast) : b ∈ (b0 :: rest).dropLast := by
  cases rest with
  | nil => cases h
  | cons x xs =>
    rw [List.dropLast_cons₂]
    exact List.mem_cons_of_mem _ h

theorem startTime_mem_flat {s : RoomStore} {b : Batch}
    (hb : b ∈ s.batches) (hwf : BatchWf b) :
    b.startTime ∈ (flatMessages s).map (·.timestamp) := by
  obtain ⟨_, _, hhead, _⟩ := hwf
  cases hm : b.messages with
  | nil =>
    rw [hm] at hhead
    simp at hhead
  | cons m0 tl =>
    rw [hm] at hhead
    simp at hhead
    apply List.mem_map.mpr
    refine ⟨m0, ?_, hhead⟩
    unfold flatMessages
    apply List.mem_flatten.mpr
    exact ⟨b.messages, List.mem_map.mpr ⟨b, hb, rfl⟩, by rw [hm]; simp⟩

theorem addMessage_ordered {t : Nat} {s : RoomStore} (m : StoredMsg) (now : Nat)
    (ho : StoreOrdered t s) (hts : t ≤ effectiveTs m now) :
    StoreOrdered (effectiveTs m now) (addMessage s m now) := by
  obtain ⟨hwf, hsortflat, hbound, hsortbatch, hfull⟩ := ho
  obtain ⟨hb, hnd, hid, hle⟩ := hwf
  have hwf2 : StoreWf (addMessage s m now) := (addMessage_wf m now ⟨hb, hnd, hid, hle⟩).1
  have hflatp := flatMessages_pushMessage m now hnd hfull
  obtain ⟨hbp, hndp, hidp⟩ := pushMessage_wf m now hb hnd hid
  -- ordering facts for the pushed store
  have hsortflatp : List.Sorted (· ≤ ·)
      ((flatMessages (pushMessage s m now)).map (·.timestamp)) := by
    rw [hflatp, List.map_append]
    refine List.pairwise_append.mpr ⟨hsortflat, by simp, ?_⟩
    intro x hx y hy
    simp at hy
    rw [hy]
    exact le_trans (hbound x hx) hts
  have hboundp : ∀ x ∈ (flatMessages (pushMessage s m now)).map (·.timestamp),
      x ≤ effectiveTs m now := by
    rw [hflatp, List.map_append]
    intro x hx
    rcases List.mem_append.mp hx with h | h
    · exact le_trans (hbound x h) hts
    · simp at h
      omega
  have hshape := pushMessage_shape m now hb hnd hfull
  have hsortbp : List.Sorted (fun a b => a.startTime ≤ b.startTime)
      (pushMessage s m now).batches ∧
      (∀ b ∈ (pushMessage s m now).batches.dropLast,
        b.messageCount = MESSAGES_PER_BATCH) := by
    rcases hshape with ⟨heq, hallfull⟩ | ⟨l, a, hla, hlt, heq⟩
    · rw [heq]
      constructor
      · refine List.pairwise_append.mpr ⟨hsortbatch, by simp, ?_⟩
        intro b hbm c hc
        simp at hc
        rw [hc]
        have := startTime_mem_flat hbm (hb b hbm)
        exact le_trans (hbound _ this) hts
      · rw [List.dropLast_concat]
        exact fun b hbm => hallfull b hbm
    · rw [heq]
      constructor
      · rw [hla] at hsortbatch
        have hdec := List.pairwise_append.mp hsortbatch
        refine List.pairwise_append.mpr ⟨hdec.1, by simp, ?_⟩
        intro b hbm c hc
        simp at hc
        rw [hc]
        exact hdec.2.2 b hbm a (by simp)
      · rw [List.dropLast_concat]
        intro b hbm
        apply hfull
        rw [hla, List.dropLast_concat]
        exact hbm
  by_cases hcap : totalCount s.batches + 1 ≤ MAX_MESSAGES_PER_ROOM
  · have htp := pushMessage_totalCount m now hb hnd
    have hcl : cleanupOldMessages (pushMessage s m now) = pushMessage s m now :=
      cleanupOldMessages_le (by omega)
    have haddeq : addMessage s m now = pushMessage s m now := hcl
    rw [haddeq] at hwf2 ⊢
    exact ⟨hwf2, hsortflatp, hboundp, hsortbp.1, hsortbp.2⟩
  · have htp := pushMessage_totalCount m now hb hnd
    have h101 : totalCount (pushMessage s m now).batches = MAX_MESSAGES_PER_ROOM + 1 := by
      omega
    obtain ⟨b0, rest, hpb, hcb, hcn⟩ :=
      cleanupOldMessages_sorted_101 hsortbp.1 hndp hbp h101
    have haddb : (addMessage s m now).batches = rest := hcb
    have hflatrest : flatMessages (addMessage s m now)
        = (rest.map (·.messages)).flatten := by
      unfold flatMessages
      rw [haddb]
    have hsubflat : (rest.map (·.messages)).flatten.Sublist
        (flatMessages (pushMessage s m now)) := by
      unfold flatMessages
      rw [hpb]
      simp only [List.map_cons, List.flatten_cons]
      exact List.sublist_append_right _ _
    refine ⟨hwf2, ?_, ?_, ?_, ?_⟩
    · rw [hflatrest]
      exact hsortflatp.sublist (hsubflat.map _)
    · rw [hflatrest]
      intro x hx
      exact hboundp x ((hsubflat.map _).subset hx)
    · rw [haddb]
      have := hsortbp.1
      rw [hpb] at this
      exact this.of_cons
    · rw [haddb]
      intro b hbm
      have := hsortbp.2
      rw [hpb] at this
      exact this b (mem_dropLast_cons hbm)

theorem storeOrdered_empty : StoreOrdered 0 RoomStore.empty := by
  refine ⟨storeWf_empty, ?_, ?_, ?_, ?_⟩
  · simp [flatMessages, RoomStore.empty]
  · simp [flatMessages, RoomStore.empty]
  · simp [RoomStore.empty]
  · simp [RoomStore.empty]

theorem appendAll_ordered (ms : List (StoredMsg × Nat)) :
    ∀ (t : Nat) (s : RoomStore), StoreOrdered t s →
    List.Sorted (· ≤ ·) (t :: ms.map (fun p => effectiveTs p.1 p.2)) →
    ∃ u, StoreOrdered u (appendAll ms s) := by
  induction ms with
  | nil =>
    intro t s ho _
    exact ⟨t, ho⟩
  | cons p rest ih =>
    intro t s ho hmono
    rw [List.map_cons] at hmono
    have h1 := (List.sorted_cons.mp hmono)
    have hts : t ≤ effectiveTs p.1 p.2 := h1.1 _ (by simp)
    have hstep := addMessage_ordered p.1 p.2 ho hts
    have hrest : List.Sorted (· ≤ ·)
        (effectiveTs p.1 p.2 :: rest.map (fun p => effectiveTs p.1 p.2)) := h1.2
    exact ih _ _ hstep hrest

/-- C4: `loadRoomHistory` never returns more than the retention ceiling of
100 messages, and when the appends carried non-decreasing timestamps (the
dispatcher assigns them from a monotonic clock) the returned sequence is in
non-decreasing timestamp order. -/
theorem history_ordered_bounded (ms : List (StoredMsg × Nat))
    (hmono : List.Sorted (· ≤ ·) (ms.map (fun p => effectiveTs p.1 p.2))) :
    (loadRoomHistory (appendAll ms RoomStore.empty)).length ≤ MAX_MESSAGES_PER_ROOM ∧
    List.Sorted (· ≤ ·)
      ((loadRoomHistory (appendAll ms RoomStore.empty)).map (·.timestamp)) := by
  constructor
  · simp only [loadRoomHistory, List.length_drop]
    omega
  · have h0 : List.Sorted (· ≤ ·) (0 :: ms.map (fun p => effectiveTs p.1 p.2)) :=
      List.pairwise_cons.mpr ⟨fun y _ => Nat.zero_le y, hmono⟩
    obtain ⟨u, ho⟩ := appendAll_ordered ms 0 RoomStore.empty storeOrdered_empty h0
    obtain ⟨hwfu, hsflat, hbnd, hsb, hful⟩ := ho
    have hsseq : sortBatches (appendAll ms RoomStore.empty).batches
        = (appendAll ms RoomStore.empty).batches := hsb.insertionSort_eq
    simp only [loadRoomHistory, hsseq]
    have hmapdrop : ∀ (l : List StoredMsg) (n : Nat),
        (l.drop n).map (·.timestamp) = (l.map (·.timestamp)).drop n := by
      intro l n
      rw [List.map_drop]
    rw [hmapdrop]
    apply hsflat.sublist
    unfold flatMessages
    exact List.drop_sublist _ _

theorem history_ordered_bounded_witness :
    List.Sorted (· ≤ ·)
      (([((⟨"message", some "a", "hi", 3⟩ : StoredMsg), 3),
         ((⟨"system", none, "b joined the room", 7⟩ : StoredMsg), 7)]).map
        (fun p => effectiveTs p.1 p.2)) ∧
    ((loadRoomHistory (appendAll
        [((⟨"message", some "a", "hi", 3⟩ : StoredMsg), 3),
         ((⟨"system", none, "b joined the room", 7⟩ : StoredMsg), 7)]
        RoomStore.empty)).length ≤ MAX_MESSAGES_PER_ROOM ∧
      List.Sorted (· ≤ ·)
        ((loadRoomHistory (appendAll
          [((⟨"message", some "a", "hi", 3⟩ : StoredMsg), 3),
           ((⟨"system", none, "b joined the room", 7⟩ : StoredMsg), 7)]
          RoomStore.empty)).map (·.timestamp))) :=
  ⟨by decide, history_ordered_bounded _ (by decide)⟩



theorem lookupClient_mem {l : List (Conn × ClientInfo)} {c : Conn} {i : ClientInfo}
    (h : lookupClient l c = some i) : (c, i) ∈ l := by
  unfold lookupClient at h
  cases hf : l.find? (fun p => p.1 == c) with
  | none => rw [hf] at h; cases h
  | some pr =>
    rw [hf] at h
    simp at h
    have hmem := List.mem_of_find?_eq_some hf
    have hp := List.find?_some hf
    simp at hp
    have hpr : pr = (c, i) := by
      cases pr
      simp at hp h ⊢
      exact ⟨hp, h⟩
    rw [← hpr]
    exact hmem

theorem any_name_of_mem {l : List (Conn × ClientInfo)} {c : Conn} {i : ClientInfo}
    (h : (c, i) ∈ l) {n : String} (hn : i.name = n) :
    l.any (fun p => p.2.name == n) = true :=
  List.any_eq_true.mpr ⟨(c, i), h, by simp [hn]⟩

theorem mem_setClient_self (l : List (Conn × ClientInfo)) (c : Conn) (i : ClientInfo) :
    (c, i) ∈ setClient l c i := by
  unfold setClient
  by_cases h : l.any (fun p => p.1 == c) = true
  · rw [if_pos h]
    rcases List.any_eq_true.mp h with ⟨p, hp, hpc⟩
    simp at hpc
    apply List.mem_map.mpr
    exact ⟨p, hp, by simp [hpc]⟩
  · rw [if_neg h]
    simp

theorem lookupClient_map_update_self {l : List (Conn × ClientInfo)} {c : Conn}
    (i : ClientInfo) (h : l.any (fun p => p.1 == c) = true) :
    lookupClient (l.map (fun p => if p.1 == c then (c, i) else p)) c = some i := by
  induction l with
  | nil => simp at h
  | cons p rest ih =>
    rw [List.map_cons]
    by_cases hp : p.1 = c
    · rw [if_pos (by simp [hp])]
      unfold lookupClient
      rw [List.find?_cons_of_pos _ (by simp)]
      rfl
    · have hp2 : (p.1 == c) = false := by simp [hp]
      rw [if_neg (by simp [hp])]
      simp only [List.any_cons, hp2, Bool.false_or] at h
      unfold lookupClient
      rw [List.find?_cons_of_neg _ (by simp [hp])]
      exact ih h

theorem lookupClient_setClient_self (l : List (Conn × ClientInfo)) (c : Conn)
    (i : ClientInfo) : lookupClient (setClient l c i) c = some i := by
  unfold setClient
  by_cases h : l.any (fun p => p.1 == c) = true
  · rw [if_pos h]
    exact lookupClient_map_update_self i h
  · rw [if_neg h]
    have hnone : l.find? (fun p => p.1 == c) = none := by
      rw [List.find?_eq_none]
      intro x hx hc
      exact h (List.any_eq_true.mpr ⟨x, hx, hc⟩)
    unfold lookupClient
    rw [List.find?_append, hnone, Option.none_or,
      List.find?_cons_of_pos _ (by simp)]
    rfl

theorem lookupClient_setClient_ne (l : List (Conn × ClientInfo)) {c c2 : Conn}
    (i : ClientInfo) (h : c2 ≠ c) :
    lookupClient (setClient l c i) c2 = lookupClient l c2 := by
  unfold setClient
  by_cases ha : l.any (fun p => p.1 == c) = true
  · rw [if_pos ha]
    clear ha
    induction l with
    | nil => rfl
    | cons p rest ih =>
      rw [List.map_cons]
      unfold lookupClient at ih ⊢
      by_cases hp : p.1 = c
      · rw [if_pos (by simp [hp])]
        rw [List.find?_cons_of_neg _ (by simp [Ne.symm h]),
          List.find?_cons_of_neg _ (by simp [hp, Ne.symm h])]
        exact ih
      · rw [if_neg (by simp [hp])]
        by_cases hp2 : p.1 = c2
        · rw [List.find?_cons_of_pos _ (by simp [hp2]),
            List.find?_cons_of_pos _ (by simp [hp2])]
        · rw [List.find?_cons_of_neg _ (by simp [hp2]),
            List.find?_cons_of_neg _ (by simp [hp2])]
          exact ih
  · rw [if_neg ha]
    unfold lookupClient
    rw [List.find?_append]
    have h1 : [(c, i)].find? (fun p => p.1 == c2) = none := by
      rw [List.find?_eq_none]
      intro x hx
      simp at hx
      simp [hx, Ne.symm h]
    rw [h1, Option.or_none]

/-- C6: evaluation of the code at the failing trace: after connection 1
registers "ann", joins "general", re-registers as "bob" (`handleJoin` never
removes a registered connection from its room) and joins "random", it is a
member of both rooms' member sets while its session's `currentRoom` is
"random" - the membership/session consistency invariant fails. -/
theorem membership_consistency_violation :
    lookupClient (processEvents initState traceTwoRooms).1.clients 1
        = some ⟨"bob", some "random"⟩ ∧
    (1 : Conn) ∈ (processEvents initState traceTwoRooms).1.rooms "general" ∧
    (1 : Conn) ∈ (processEvents initState traceTwoRooms).1.rooms "random" := by
  decide

/-- C2: evaluation of the code at the failing trace: connection 2 (current
room "general") sends a chat that is delivered live to connection 1, whose
session's current room is "random" - room isolation fails. -/
theorem room_isolation_violation :
    lookupClient (processEvents initState traceCrossRoom).1.clients 2
        = some ⟨"carl", some "general"⟩ ∧
    lookupClient (processEvents initState traceCrossRoom).1.clients 1
        = some ⟨"bob", some "random"⟩ ∧
    ((1 : Conn), Frame.chat "carl" "hi" 7 "general")
        ∈ (processEvents initState traceCrossRoom).2 := by
  decide

/-- C7 counterexample: a registered connection's name is not immutable: the
already-registered connection 1 (named "ann") sends a join frame carrying
the fresh name "bob" and its session's recorded name changes to "bob". -/
theorem name_immutability_violation :
    lookupClient (processEvents initState (traceRename.take 2)).1.clients 1
        = some ⟨"ann", none⟩ ∧
    lookupClient (processEvents initState (traceRename.take 3)).1.clients 1
        = some ⟨"bob", none⟩ := by
  decide

/-- C1 counterexample: two distinct live connections both send a join frame
carrying "ann"; because connection 1 re-registered as "bob" in between, the
second attempt also creates a session and no `username_taken` frame is ever
delivered to connection 2, although connection 1 is live throughout. -/
theorem name_uniqueness_violation :
    lookupClient (processEvents initState traceRename).1.clients 1 = some ⟨"bob", none⟩ ∧
    lookupClient (processEvents initState traceRename).1.clients 2 = some ⟨"ann", none⟩ ∧
    (1 : Conn) ∈ (processEvents initState traceRename).1.openConns ∧
    (2 : Conn) ∈ (processEvents initState traceRename).1.openConns ∧
    (∀ p ∈ (processEvents initState traceRename).2,
      p.1 = 2 → isUsernameTakenFrame p.2 = false) := by
  decide

theorem validateMessage_join {n : String} (h : jsTrim n ≠ "") :
    validateMessage (ClientMsg.join n) = true := by
  simp [validateMessage, h]

theorem validateMessage_joinRoom {r : String} (h : jsTrim r ≠ "") :
    validateMessage (ClientMsg.joinRoom r) = true := by
  simp [validateMessage, h]

theorem validateMessage_chat {txt : String} (h : jsTrim txt ≠ "") :
    validateMessage (ClientMsg.chat txt) = true := by
  simp [validateMessage, h]

theorem handleRawMessage_valid {s : ServerState} {ws : Conn} {m : ClientMsg}
    {t : Nat} {ok : Bool} (hv : validateMessage m = true) :
    handleRawMessage s ws m t ok =
      match m with
      | .join n => handleJoin s ws n
      | .joinRoom r => handleJoinRoom s ws r t ok
      | .chat txt => handleChatMessage s ws txt t ok
      | .other ty => (s, sendTo s ws (Frame.error ("Unknown message type: " ++ ty))) := by
  unfold handleRawMessage
  rw [hv]
  simp only [Bool.not_true, Bool.false_eq_true, if_false]
  cases m <;> rfl

theorem handleRawMessage_invalid {s : ServerState} {ws : Conn} {m : ClientMsg}
    {t : Nat} {ok : Bool} (hv : validateMessage m = false) :
    handleRawMessage s ws m t ok = (s, sendTo s ws (Frame.error (validationError m))) := by
  unfold handleRawMessage
  rw [hv]
  rfl

theorem handleJoin_taken {s : ServerState} {ws : Conn} {n : String}
    (h : s.clients.any (fun p => p.2.name == jsTrim n) = true) :
    handleJoin s ws n = (s, sendTo s ws (Frame.usernameTaken
      ("Username \x27" ++ jsTrim n ++ "\x27 is already in use. Please choose another."))) := by
  unfold handleJoin
  simp only [h, if_true]

theorem handleJoin_fresh {s : ServerState} {ws : Conn} {n : String}
    (h : s.clients.any (fun p => p.2.name == jsTrim n) = false) :
    handleJoin s ws n =
      ({ s with clients := setClient s.clients ws ⟨jsTrim n, none⟩ },
        sendTo s ws (Frame.system ("Welcome " ++ jsTrim n ++ "! Please select a room to join."))
          ++ sendTo s ws (Frame.roomList getAvailableRooms)) := by
  unfold handleJoin
  simp only [h, Bool.false_eq_true, if_false]

theorem handleChatMessage_unregistered {s : ServerState} {ws : Conn} {txt : String}
    {t : Nat} {ok : Bool} (h : lookupClient s.clients ws = none) :
    handleChatMessage s ws txt t ok
      = (s, sendTo s ws (Frame.error ("You must join with a username before sending messages"))) := by
  unfold handleChatMessage
  rw [h]

theorem handleChatMessage_no_room {s : ServerState} {ws : Conn} {txt : String}
    {t : Nat} {ok : Bool} {info : ClientInfo}
    (h : lookupClient s.clients ws = some info) (hr : info.currentRoom = none) :
    handleChatMessage s ws txt t ok
      = (s, sendTo s ws (Frame.error ("You must join a room before sending messages"))) := by
  unfold handleChatMessage
  rw [h]
  simp only [hr]

theorem handleChatMessage_in_room {s : ServerState} {ws : Conn} {txt : String}
    {t : Nat} {ok : Bool} {info : ClientInfo} {room : String}
    (h : lookupClient s.clients ws = some info) (hr : info.currentRoom = some room)
    (ht : (jsTrim txt == "") = false) :
    handleChatMessage s ws txt t ok
      = ({ s with histories := addMessageToRoom s.histories room (⟨"message", some info.name, jsTrim txt, t⟩ : StoredMsg) t ok },
         broadcastToRoom
           { s with histories := addMessageToRoom s.histories room (⟨"message", some info.name, jsTrim txt, t⟩ : StoredMsg) t ok }
           room (Frame.chat info.name (jsTrim txt) t room) none) := by
  unfold handleChatMessage
  rw [h]
  simp only [hr, ht, Bool.false_eq_true, if_false]

theorem handleJoinRoom_unregistered {s : ServerState} {ws : Conn} {r : String}
    {t : Nat} {ok : Bool} (h : lookupClient s.clients ws = none) :
    handleJoinRoom s ws r t ok
      = (s, sendTo s ws (Frame.error ("You must register with a username first"))) := by
  unfold handleJoinRoom
  rw [h]

theorem handleJoinRoom_invalid {s : ServerState} {ws : Conn} {r : String}
    {t : Nat} {ok : Bool} {info : ClientInfo}
    (h : lookupClient s.clients ws = some info) (hval : isValidRoom (jsTrim r) = false) :
    handleJoinRoom s ws r t ok
      = (s, sendTo s ws (Frame.error ("Invalid room: " ++ jsTrim r))) := by
  unfold handleJoinRoom
  rw [h]
  simp only [hval, Bool.not_false, if_true]

theorem handleJoinRoom_valid {s : ServerState} {ws : Conn} {r : String}
    {t : Nat} {ok : Bool} {info : ClientInfo}
    (h : lookupClient s.clients ws = some info) (hval : isValidRoom (jsTrim r) = true) :
    handleJoinRoom s ws r t ok =
      (let lv := if info.currentRoom.isSome then leaveCurrentRoom s ws info t ok else (s, []);
       let s2 : ServerState := { lv.1 with
         clients := setClient lv.1.clients ws ⟨info.name, some (jsTrim r)⟩
         rooms := updRoom lv.1.rooms (jsTrim r) (fun l => addMem l ws) };
       let history := loadRoomHistory (s2.histories (jsTrim r));
       let outHist := if history.length > 0
         then sendTo s2 ws (Frame.history history (jsTrim r)) else [];
       let s3 : ServerState := { s2 with histories := addMessageToRoom s2.histories (jsTrim r) (⟨"system", none, info.name ++ " joined the room", t⟩ : StoredMsg) t ok };
       let outJoin := broadcastToRoom s3 (jsTrim r)
         (Frame.userJoinedRoom info.name t (jsTrim r)) (some ws);
       let confirmText := if info.currentRoom.isSome
         then "switched to room: " ++ jsTrim r else "joined room: " ++ jsTrim r;
       (s3, lv.2 ++ outHist ++ outJoin ++ sendTo s3 ws (Frame.system ("You " ++ confirmText)))) := by
  unfold handleJoinRoom
  rw [h]
  simp only [hval, Bool.not_true, Bool.false_eq_true, if_false]

/-- C7 (amended): the name recorded in a connection's session is unchanged
by every frame the connection sends, except a join frame whose trimmed name
is not currently held by any registered client; that frame replaces the
session with a fresh one bearing the new name (the rename hole of
`handleJoin`). -/
theorem name_changes_only_via_fresh_join
    (s : ServerState) (ws : Conn) (m : ClientMsg) (t : Nat) (ok : Bool)
    (info info2 : ClientInfo)
    (hinfo : lookupClient s.clients ws = some info)
    (hinfo2 : lookupClient (handleRawMessage s ws m t ok).1.clients ws = some info2) :
    info2.name = info.name ∨
    (∃ n, m = ClientMsg.join n ∧ info2.name = jsTrim n ∧
      ∀ p ∈ s.clients, p.2.name ≠ jsTrim n) := by
  by_cases hv : validateMessage m = true
  case neg =>
    rw [Bool.not_eq_true] at hv
    rw [handleRawMessage_invalid hv] at hinfo2
    replace hinfo2 : lookupClient s.clients ws = some info2 := hinfo2
    rw [hinfo] at hinfo2
    left
    injection hinfo2 with h
    rw [← h]
  case pos =>
    cases m with
    | join n =>
      rw [show handleRawMessage s ws (ClientMsg.join n) t ok = handleJoin s ws n from
        handleRawMessage_valid hv] at hinfo2
      by_cases htaken : s.clients.any (fun p => p.2.name == jsTrim n) = true
      · rw [handleJoin_taken htaken] at hinfo2
        replace hinfo2 : lookupClient s.clients ws = some info2 := hinfo2
        rw [hinfo] at hinfo2
        left
        injection hinfo2 with h
        rw [← h]
      · rw [Bool.not_eq_true] at htaken
        rw [handleJoin_fresh htaken] at hinfo2
        replace hinfo2 :
            lookupClient (setClient s.clients ws ⟨jsTrim n, none⟩) ws = some info2 := hinfo2
        rw [lookupClient_setClient_self] at hinfo2
        right
        refine ⟨n, rfl, ?_, ?_⟩
        · injection hinfo2 with h
          rw [← h]
        · intro p hp hname
          rw [List.any_eq_true.mpr ⟨p, hp, by simp [hname]⟩] at htaken
          cases htaken
    | joinRoom r =>
      rw [show handleRawMessage s ws (ClientMsg.joinRoom r) t ok = handleJoinRoom s ws r t ok from
        handleRawMessage_valid hv] at hinfo2
      by_cases hval : isValidRoom (jsTrim r) = true
      · rw [handleJoinRoom_valid hinfo hval] at hinfo2
        replace hinfo2 : lookupClient
            (setClient (if info.currentRoom.isSome then leaveCurrentRoom s ws info t ok
              else (s, [])).1.clients ws ⟨info.name, some (jsTrim r)⟩) ws
            = some info2 := hinfo2
        rw [lookupClient_setClient_self] at hinfo2
        left
        injection hinfo2 with h
        rw [← h]
      · rw [Bool.not_eq_true] at hval
        rw [handleJoinRoom_invalid hinfo hval] at hinfo2
        replace hinfo2 : lookupClient s.clients ws = some info2 := hinfo2
        rw [hinfo] at hinfo2
        left
        injection hinfo2 with h
        rw [← h]
    | chat text =>
      rw [show handleRawMessage s ws (ClientMsg.chat text) t ok
          = handleChatMessage s ws text t ok from handleRawMessage_valid hv] at hinfo2
      have hne : jsTrim text ≠ "" := by simpa [validateMessage] using hv
      have ht : (jsTrim text == "") = false := beq_eq_false_iff_ne.mpr hne
      cases hc : info.currentRoom with
      | none =>
        rw [handleChatMessage_no_room hinfo hc] at hinfo2
        replace hinfo2 : lookupClient s.clients ws = some info2 := hinfo2
        rw [hinfo] at hinfo2
        left
        injection hinfo2 with h
        rw [← h]
      | some room =>
        rw [handleChatMessage_in_room hinfo hc ht] at hinfo2
        replace hinfo2 : lookupClient s.clients ws = some info2 := hinfo2
        rw [hinfo] at hinfo2
        left
        injection hinfo2 with h
        rw [← h]
    | other ty =>
      rw [show handleRawMessage s ws (ClientMsg.other ty) t ok
          = (s, sendTo s ws (Frame.error ("Unknown message type: " ++ ty)))
        from handleRawMessage_valid hv] at hinfo2
      replace hinfo2 : lookupClient s.clients ws = some info2 := hinfo2
      rw [hinfo] at hinfo2
      left
      injection hinfo2 with h
      rw [← h]

theorem name_changes_only_via_fresh_join_witness :
    (lookupClient (⟨[(1, ⟨"ann", none⟩)], fun _ => [], fun _ => RoomStore.empty, [1]⟩
        : ServerState).clients 1 = some ⟨"ann", none⟩ ∧
      lookupClient (handleRawMessage
        (⟨[(1, ⟨"ann", none⟩)], fun _ => [], fun _ => RoomStore.empty, [1]⟩ : ServerState)
        1 (ClientMsg.chat "hi") 5 true).1.clients 1 = some ⟨"ann", none⟩) ∧
    ((⟨"ann", none⟩ : ClientInfo).name = (⟨"ann", none⟩ : ClientInfo).name ∨
      (∃ n, ClientMsg.chat "hi" = ClientMsg.join n ∧
        (⟨"ann", none⟩ : ClientInfo).name = jsTrim n ∧
        ∀ p ∈ (⟨[(1, ⟨"ann", none⟩)], fun _ => [], fun _ => RoomStore.empty, [1]⟩
          : ServerState).clients, p.2.name ≠ jsTrim n)) :=
  ⟨⟨by decide, by decide⟩,
    name_changes_only_via_fresh_join _ 1 (ClientMsg.chat "hi") 5 true _ _
      (by decide) (by decide)⟩

/-- C9: a chat frame from an unregistered connection, or from a registered
connection that is in no room, produces only an `error` frame to that
connection and leaves the whole server state (sessions, member sets, every
room's history) unchanged. -/
theorem chat_rejected_without_side_effects
    (s : ServerState) (ws : Conn) (text : String) (t : Nat) (ok : Bool) :
    (lookupClient s.clients ws = none →
      ∃ e, handleRawMessage s ws (ClientMsg.chat text) t ok
        = (s, sendTo s ws (Frame.error e))) ∧
    (∀ info, lookupClient s.clients ws = some info → info.currentRoom = none →
      ∃ e, handleRawMessage s ws (ClientMsg.chat text) t ok
        = (s, sendTo s ws (Frame.error e))) := by
  by_cases hv : validateMessage (ClientMsg.chat text) = true
  · have hrm : handleRawMessage s ws (ClientMsg.chat text) t ok
        = handleChatMessage s ws text t ok := handleRawMessage_valid hv
    constructor
    · intro hnone
      exact ⟨_, by rw [hrm, handleChatMessage_unregistered hnone]⟩
    · intro info hsome hroom
      exact ⟨_, by rw [hrm, handleChatMessage_no_room hsome hroom]⟩
  · rw [Bool.not_eq_true] at hv
    constructor
    · intro _
      exact ⟨_, handleRawMessage_invalid hv⟩
    · intro _ _ _
      exact ⟨_, handleRawMessage_invalid hv⟩

theorem chat_rejected_without_side_effects_witness :
    (∃ e, handleRawMessage initState 1 (ClientMsg.chat "hi") 5 true
        = (initState, sendTo initState 1 (Frame.error e))) ∧
    (∃ e, handleRawMessage
        (⟨[(1, ⟨"ann", none⟩)], fun _ => [], fun _ => RoomStore.empty, [1]⟩ : ServerState)
        1 (ClientMsg.chat "hi") 5 true
      = ((⟨[(1, ⟨"ann", none⟩)], fun _ => [], fun _ => RoomStore.empty, [1]⟩ : ServerState),
        sendTo (⟨[(1, ⟨"ann", none⟩)], fun _ => [], fun _ => RoomStore.empty, [1]⟩ : ServerState)
          1 (Frame.error e))) :=
  ⟨(chat_rejected_without_side_effects initState 1 "hi" 5 true).1 (by decide),
   (chat_rejected_without_side_effects
      (⟨[(1, ⟨"ann", none⟩)], fun _ => [], fun _ => RoomStore.empty, [1]⟩ : ServerState)
      1 "hi" 5 true).2 ⟨"ann", none⟩ (by decide) rfl⟩

/-- C1 (amended): joins are rejected exactly while the name is held: (a) in
any state where some registered connection's session bears the trimmed
name, a join frame carrying that name from any connection is rejected with
a `username_taken` frame and no state change; (b) when the name is free,
of two join frames for it from two connections (in either order, the
variables are universally quantified) the first creates the session and
the second is rejected with `username_taken` and no state change.  The
rejection persists while the holder is live and still bears the name; it
can end early only through the holder's own fresh-name re-join (the
counterexample) or disconnect. -/
theorem name_uniqueness_while_held :
    (∀ (s : ServerState) (ws ws2 : Conn) (n : String) (t : Nat) (ok : Bool)
        (info2 : ClientInfo),
      lookupClient s.clients ws2 = some info2 → info2.name = jsTrim n → jsTrim n ≠ "" →
      stepEvent s (Event.frame ws (ClientMsg.join n) t ok)
        = (s, sendTo s ws (Frame.usernameTaken
            ("Username \x27" ++ jsTrim n ++ "\x27 is already in use. Please choose another.")))) ∧
    (∀ (s : ServerState) (ws1 ws2 : Conn) (n : String) (t1 t2 : Nat) (ok1 ok2 : Bool),
      jsTrim n ≠ "" → (∀ p ∈ s.clients, p.2.name ≠ jsTrim n) →
      lookupClient (stepEvent s (Event.frame ws1 (ClientMsg.join n) t1 ok1)).1.clients ws1
          = some ⟨jsTrim n, none⟩ ∧
      stepEvent (stepEvent s (Event.frame ws1 (ClientMsg.join n) t1 ok1)).1
          (Event.frame ws2 (ClientMsg.join n) t2 ok2)
        = ((stepEvent s (Event.frame ws1 (ClientMsg.join n) t1 ok1)).1,
           sendTo (stepEvent s (Event.frame ws1 (ClientMsg.join n) t1 ok1)).1 ws2
             (Frame.usernameTaken
               ("Username \x27" ++ jsTrim n ++ "\x27 is already in use. Please choose another.")))) := by
  constructor
  · intro s ws ws2 n t ok info2 hlook hname hn
    have htaken : s.clients.any (fun p => p.2.name == jsTrim n) = true :=
      any_name_of_mem (lookupClient_mem hlook) hname
    show handleRawMessage s ws (ClientMsg.join n) t ok = _
    rw [handleRawMessage_valid (validateMessage_join hn)]
    exact handleJoin_taken htaken
  · intro s ws1 ws2 n t1 t2 ok1 ok2 hn hfree
    have hv := validateMessage_join hn
    have hany : (s.clients.any (fun p => p.2.name == jsTrim n)) = false := by
      rw [List.any_eq_false]
      intro p hp
      simp
      exact hfree p hp
    have h1 : stepEvent s (Event.frame ws1 (ClientMsg.join n) t1 ok1)
        = ({ s with clients := setClient s.clients ws1 ⟨jsTrim n, none⟩ },
           sendTo s ws1 (Frame.system ("Welcome " ++ jsTrim n ++ "! Please select a room to join."))
             ++ sendTo s ws1 (Frame.roomList getAvailableRooms)) := by
      show handleRawMessage s ws1 (ClientMsg.join n) t1 ok1 = _
      rw [handleRawMessage_valid hv]
      exact handleJoin_fresh hany
    rw [h1]
    constructor
    · exact lookupClient_setClient_self _ _ _
    · show handleRawMessage _ ws2 (ClientMsg.join n) t2 ok2 = _
      rw [handleRawMessage_valid hv]
      have htaken : ((setClient s.clients ws1 ⟨jsTrim n, none⟩).any
          (fun p => p.2.name == jsTrim n)) = true :=
        any_name_of_mem (mem_setClient_self s.clients ws1 ⟨jsTrim n, none⟩) rfl
      exact handleJoin_taken htaken

theorem name_uniqueness_while_held_witness :
    (stepEvent (⟨[(2, ⟨"ann", none⟩)], fun _ => [], fun _ => RoomStore.empty, [1, 2]⟩
        : ServerState) (Event.frame 1 (ClientMsg.join "ann") 5 true)
      = ((⟨[(2, ⟨"ann", none⟩)], fun _ => [], fun _ => RoomStore.empty, [1, 2]⟩ : ServerState),
         sendTo (⟨[(2, ⟨"ann", none⟩)], fun _ => [], fun _ => RoomStore.empty, [1, 2]⟩
            : ServerState) 1 (Frame.usernameTaken
           ("Username \x27" ++ jsTrim "ann" ++ "\x27 is already in use. Please choose another.")))) ∧
    (lookupClient (stepEvent initState
        (Event.frame 1 (ClientMsg.join "ann") 1 true)).1.clients 1
        = some ⟨jsTrim "ann", none⟩ ∧
      stepEvent (stepEvent initState (Event.frame 1 (ClientMsg.join "ann") 1 true)).1
          (Event.frame 2 (ClientMsg.join "ann") 2 true)
        = ((stepEvent initState (Event.frame 1 (ClientMsg.join "ann") 1 true)).1,
           sendTo (stepEvent initState (Event.frame 1 (ClientMsg.join "ann") 1 true)).1 2
             (Frame.usernameTaken
               ("Username \x27" ++ jsTrim "ann" ++ "\x27 is already in use. Please choose another.")))) :=
  ⟨name_uniqueness_while_held.1
      (⟨[(2, ⟨"ann", none⟩)], fun _ => [], fun _ => RoomStore.empty, [1, 2]⟩ : ServerState)
      1 2 "ann" 5 true ⟨"ann", none⟩ (by decide) (by decide) (by decide),
   name_uniqueness_while_held.2 initState 1 2 "ann" 1 2 true true
      (by decide) (by decide)⟩



theorem addMessageToRoom_fault (h : String → RoomStore) (room : String)
    (m : StoredMsg) (now : Nat) : addMessageToRoom h room m now false = h := by
  unfold addMessageToRoom addMessageAttempt updHist
  by_cases hv : isValidRoom room = true
  · rw [if_pos hv]
    funext x
    by_cases hx : x = room <;> simp [hx]
  · rw [if_neg hv]

theorem mem_sendTo {s : ServerState} {c : Conn} {f : Frame} {p : Conn × Frame}
    (h : p ∈ sendTo s c f) : p = (c, f) := by
  unfold sendTo at h
  by_cases hc : c ∈ s.openConns
  · rw [if_pos hc] at h
    simpa using h
  · rw [if_neg hc] at h
    cases h

theorem broadcastToRoom_frame {s : ServerState} {r : String} {f : Frame}
    {excl : Option Conn} {p : Conn × Frame} (h : p ∈ broadcastToRoom s r f excl) :
    p.2 = f ∧ some p.1 ≠ excl ∧ p.1 ∈ s.openConns := by
  unfold broadcastToRoom at h
  rcases List.mem_filterMap.mp h with ⟨c, hc, hite⟩
  by_cases hcond : some c ≠ excl ∧ c ∈ s.openConns
  · rw [if_pos hcond] at hite
    injection hite with he
    rw [← he]
    exact ⟨rfl, hcond.1, hcond.2⟩
  · rw [if_neg hcond] at hite
    cases hite

theorem broadcastToRoom_sends {s : ServerState} {r : String} (f : Frame)
    {excl : Option Conn} {c : Conn} (hc : c ∈ s.rooms r) (hopen : c ∈ s.openConns)
    (hexcl : some c ≠ excl) : (c, f) ∈ broadcastToRoom s r f excl := by
  unfold broadcastToRoom
  exact List.mem_filterMap.mpr ⟨c, hc, by rw [if_pos ⟨hexcl, hopen⟩]⟩

theorem leaveCurrentRoom_fault (s : ServerState) (ws : Conn) (info : ClientInfo)
    (t : Nat) :
    (leaveCurrentRoom s ws info t false).1.histories = s.histories ∧
    (leaveCurrentRoom s ws info t false).1.openConns = s.openConns ∧
    (∀ p ∈ (leaveCurrentRoom s ws info t false).2, isErrorFrame p.2 = false) := by
  unfold leaveCurrentRoom
  cases hr : info.currentRoom with
  | none => exact ⟨rfl, rfl, by intro p hp; cases hp⟩
  | some room =>
    refine ⟨?_, rfl, ?_⟩
    · show addMessageToRoom s.histories room _ t false = s.histories
      exact addMessageToRoom_fault _ _ _ _
    · intro p hp
      have := (broadcastToRoom_frame hp).1
      rw [this]
      rfl

theorem isValidRoom_ne_empty {x : String} (h : isValidRoom x = true) : x ≠ "" := by
  intro he
  rw [he] at h
  exact absurd h (by decide)

/-- C8: when the storage layer faults during the append (and cleanup) of a
chat or system message (`ok = false`), no error frame is sent to any
client, no room's history changes (the fault is only logged), the delivered
frames are exactly those of a healthy-storage run, and the triggering chat
message is still broadcast live to every open member of the room; likewise
a `join_room`'s system notice still reaches the new room's other open
members. -/
theorem storage_fault_not_surfaced
    (s : ServerState) (ws : Conn) (t : Nat) (info : ClientInfo)
    (hinfo : lookupClient s.clients ws = some info) :
    (∀ text room, info.currentRoom = some room → jsTrim text ≠ "" →
      (handleRawMessage s ws (ClientMsg.chat text) t false).1.histories = s.histories ∧
      (handleRawMessage s ws (ClientMsg.chat text) t false).2
        = (handleRawMessage s ws (ClientMsg.chat text) t true).2 ∧
      (∀ p ∈ (handleRawMessage s ws (ClientMsg.chat text) t false).2,
        isErrorFrame p.2 = false) ∧
      (∀ c, c ∈ s.rooms room → c ∈ s.openConns →
        (c, Frame.chat info.name (jsTrim text) t room)
          ∈ (handleRawMessage s ws (ClientMsg.chat text) t false).2)) ∧
    (∀ r, isValidRoom (jsTrim r) = true →
      (handleRawMessage s ws (ClientMsg.joinRoom r) t false).1.histories = s.histories ∧
      (∀ p ∈ (handleRawMessage s ws (ClientMsg.joinRoom r) t false).2,
        isErrorFrame p.2 = false) ∧
      (∀ c, c ∈ (handleRawMessage s ws (ClientMsg.joinRoom r) t false).1.rooms (jsTrim r) →
        c ∈ s.openConns → c ≠ ws →
        (c, Frame.userJoinedRoom info.name t (jsTrim r))
          ∈ (handleRawMessage s ws (ClientMsg.joinRoom r) t false).2)) := by
  constructor
  · intro text room hroom hne
    have ht : (jsTrim text == "") = false := beq_eq_false_iff_ne.mpr hne
    have hf := @handleRawMessage_valid s ws (ClientMsg.chat text) t false
      (validateMessage_chat hne)
    have htr := @handleRawMessage_valid s ws (ClientMsg.chat text) t true
      (validateMessage_chat hne)
    rw [show handleRawMessage s ws (ClientMsg.chat text) t false
        = handleChatMessage s ws text t false from hf,
      handleChatMessage_in_room hinfo hroom ht]
    refine ⟨addMessageToRoom_fault _ _ _ _, ?_, ?_, ?_⟩
    · rw [show handleRawMessage s ws (ClientMsg.chat text) t true
          = handleChatMessage s ws text t true from htr,
        handleChatMessage_in_room hinfo hroom ht]
      rfl
    · intro p hp
      have := (broadcastToRoom_frame hp).1
      rw [this]
      rfl
    · intro c hc hopen
      exact broadcastToRoom_sends _ hc hopen (by simp)
  · intro r hval
    rw [show handleRawMessage s ws (ClientMsg.joinRoom r) t false
        = handleJoinRoom s ws r t false from handleRawMessage_valid
          (validateMessage_joinRoom (isValidRoom_ne_empty hval)),
      handleJoinRoom_valid hinfo hval]
    have hlv := leaveCurrentRoom_fault s ws info t
    refine ⟨?_, ?_, ?_⟩
    · show addMessageToRoom
        (if info.currentRoom.isSome then leaveCurrentRoom s ws info t false
          else (s, [])).1.histories (jsTrim r) _ t false = s.histories
      rw [addMessageToRoom_fault]
      by_cases hin : info.currentRoom.isSome
      · rw [if_pos hin]
        exact hlv.1
      · rw [if_neg hin]
    · intro p hp
      rcases List.mem_append.mp hp with hp1 | hp1
      · rcases List.mem_append.mp hp1 with hp2 | hp2
        · rcases List.mem_append.mp hp2 with hp3 | hp3
          · by_cases hin : info.currentRoom.isSome
            · rw [if_pos hin] at hp3
              exact hlv.2.2 p hp3
            · rw [if_neg hin] at hp3
              cases hp3
          · by_cases hh : (loadRoomHistory ((if info.currentRoom.isSome
                then leaveCurrentRoom s ws info t false else (s, [])).1.histories
                  (jsTrim r))).length > 0
            · rw [if_pos hh] at hp3
              rw [mem_sendTo hp3]
              rfl
            · rw [if_neg hh] at hp3
              cases hp3
        · have := (broadcastToRoom_frame hp2).1
          rw [this]
          rfl
      · rw [mem_sendTo hp1]
        rfl
    · intro c hc hopen hne
      have hopeneq : ((if info.currentRoom.isSome then leaveCurrentRoom s ws info t false
          else (s, [])).1).openConns = s.openConns := by
        by_cases hin : info.currentRoom.isSome
        · rw [if_pos hin]
          exact hlv.2.1
        · rw [if_neg hin]
      have hopen2 : c ∈ ((if info.currentRoom.isSome then leaveCurrentRoom s ws info t false
          else (s, [])).1).openConns := by
        rw [hopeneq]
        exact hopen
      apply List.mem_append.mpr
      left
      apply List.mem_append.mpr
      right
      exact broadcastToRoom_sends _ hc hopen2 (by simp [hne])

theorem storage_fault_not_surfaced_witness :
    ((2 : Conn), Frame.chat "ann" "hi" 5 "general")
      ∈ (handleRawMessage
          (⟨[(1, ⟨"ann", some "general"⟩), (2, ⟨"bob", some "general"⟩)],
            fun x => if x = "general" then [1, 2] else [],
            fun _ => RoomStore.empty, [1, 2]⟩ : ServerState)
          1 (ClientMsg.chat "hi") 5 false).2 ∧
    (handleRawMessage
        (⟨[(1, ⟨"ann", some "general"⟩), (2, ⟨"bob", some "general"⟩)],
          fun x => if x = "general" then [1, 2] else [],
          fun _ => RoomStore.empty, [1, 2]⟩ : ServerState)
        1 (ClientMsg.chat "hi") 5 false).1.histories
      = (⟨[(1, ⟨"ann", some "general"⟩), (2, ⟨"bob", some "general"⟩)],
          fun x => if x = "general" then [1, 2] else [],
          fun _ => RoomStore.empty, [1, 2]⟩ : ServerState).histories :=
  have h := storage_fault_not_surfaced
    (⟨[(1, ⟨"ann", some "general"⟩), (2, ⟨"bob", some "general"⟩)],
      fun x => if x = "general" then [1, 2] else [],
      fun _ => RoomStore.empty, [1, 2]⟩ : ServerState)
    1 5 ⟨"ann", some "general"⟩ (by decide)
  have hc := h.1 "hi" "general" rfl (by decide)
  ⟨hc.2.2.2 2 (by decide) (by decide), hc.1⟩

theorem processEvents_cons_snd (s : ServerState) (e : Event) (rest : List Event) :
    (processEvents s (e :: rest)).2
      = (stepEvent s e).2 ++ (processEvents (stepEvent s e).1 rest).2 := rfl

theorem leaveCurrentRoom_no_self (s : ServerState) (ws : Conn) (info : ClientInfo)
    (t : Nat) (ok : Bool) :
    ∀ p ∈ (leaveCurrentRoom s ws info t ok).2, p.1 ≠ ws := by
  unfold leaveCurrentRoom
  cases info.currentRoom with
  | none => intro p hp; cases hp
  | some room =>
    intro p hp
    have := (broadcastToRoom_frame hp).2.1
    intro he
    exact this (by rw [he])

theorem handleJoinRoom_filter_head {s : ServerState} {ws : Conn} {r : String}
    {t : Nat} {ok : Bool} {info : ClientInfo} {msgs : List StoredMsg} {rm : String}
    (hinfo : lookupClient s.clients ws = some info)
    (hval : isValidRoom (jsTrim r) = true)
    (hm : (ws, Frame.history msgs rm) ∈ (handleJoinRoom s ws r t ok).2) :
    ((handleJoinRoom s ws r t ok).2.filter (fun p => p.1 == ws)).head?
      = some (ws, Frame.history msgs rm) := by
  rw [handleJoinRoom_valid hinfo hval] at hm ⊢
  replace hm : (ws, Frame.history msgs rm) ∈
      ((((if info.currentRoom.isSome then leaveCurrentRoom s ws info t ok else (s, [])).2 ++ (if (loadRoomHistory (({ (if info.currentRoom.isSome then leaveCurrentRoom s ws info t ok else (s, [])).1 with clients := setClient (if info.currentRoom.isSome then leaveCurrentRoom s ws info t ok else (s, [])).1.clients ws ⟨info.name, some (jsTrim r)⟩, rooms := updRoom (if info.currentRoom.isSome then leaveCurrentRoom s ws info t ok else (s, [])).1.rooms (jsTrim r) (fun l => addMem l ws) } : ServerState).histories (jsTrim r))).length > 0 then sendTo ({ (if info.currentRoom.isSome then leaveCurrentRoom s ws info t ok else (s, [])).1 with clients := setClient (if info.currentRoom.isSome then leaveCurrentRoom s ws info t ok else (s, [])).1.clients ws ⟨info.name, some (jsTrim r)⟩, rooms := updRoom (if info.currentRoom.isSome then leaveCurrentRoom s ws info t ok else (s, [])).1.rooms (jsTrim r) (fun l => addMem l ws) } : ServerState) ws (Frame.history (loadRoomHistory (({ (if info.currentRoom.isSome then leaveCurrentRoom s ws info t ok else (s, [])).1 with clients := setClient (if info.currentRoom.isSome then leaveCurrentRoom s ws info t ok else (s, [])).1.clients ws ⟨info.name, some (jsTrim r)⟩, rooms := updRoom (if info.currentRoom.isSome then leaveCurrentRoom s ws info t ok else (s, [])).1.rooms (jsTrim r) (fun l => addMem l ws) } : ServerState).histories (jsTrim r))) (jsTrim r)) else [])) ++ broadcastToRoom ({ ({ (if info.currentRoom.isSome then leaveCurrentRoom s ws info t ok else (s, [])).1 with clients := setClient (if info.currentRoom.isSome then leaveCurrentRoom s ws info t ok else (s, [])).1.clients ws ⟨info.name, some (jsTrim r)⟩, rooms := updRoom (if info.currentRoom.isSome then leaveCurrentRoom s ws info t ok else (s, [])).1.rooms (jsTrim r) (fun l => addMem l ws) } : ServerState) with histories := addMessageToRoom ({ (if info.currentRoom.isSome then leaveCurrentRoom s ws info t ok else (s, [])).1 with clients := setClient (if info.currentRoom.isSome then leaveCurrentRoom s ws info t ok else (s, [])).1.clients ws ⟨info.name, some (jsTrim r)⟩, rooms := updRoom (if info.currentRoom.isSome then leaveCurrentRoom s ws info t ok else (s, [])).1.rooms (jsTrim r) (fun l => addMem l ws) } : ServerState).histories (jsTrim r) (⟨"system", none, info.name ++ " joined the room", t⟩ : StoredMsg) t ok } : ServerState) (jsTrim r) (Frame.userJoinedRoom info.name t (jsTrim r)) (some ws)) ++ sendTo ({ ({ (if info.currentRoom.isSome then leaveCurrentRoom s ws info t ok else (s, [])).1 with clients := setClient (if info.currentRoom.isSome then leaveCurrentRoom s ws info t ok else (s, [])).1.clients ws ⟨info.name, some (jsTrim r)⟩, rooms := updRoom (if info.currentRoom.isSome then leaveCurrentRoom s ws info t ok else (s, [])).1.rooms (jsTrim r) (fun l => addMem l ws) } : ServerState) with histories := addMessageToRoom ({ (if info.currentRoom.isSome then leaveCurrentRoom s ws info t ok else (s, [])).1 with clients := setClient (if info.currentRoom.isSome then leaveCurrentRoom s ws info t ok else (s, [])).1.clients ws ⟨info.name, some (jsTrim r)⟩, rooms := updRoom (if info.currentRoom.isSome then leaveCurrentRoom s ws info t ok else (s, [])).1.rooms (jsTrim r) (fun l => addMem l ws) } : ServerState).histories (jsTrim r) (⟨"system", none, info.name ++ " joined the room", t⟩ : StoredMsg) t ok } : ServerState) ws (Frame.system ("You " ++ (if info.currentRoom.isSome then "switched to room: " ++ jsTrim r else "joined room: " ++ jsTrim r)))) := hm
  show (((((if info.currentRoom.isSome then leaveCurrentRoom s ws info t ok else (s, [])).2 ++ (if (loadRoomHistory (({ (if info.currentRoom.isSome then leaveCurrentRoom s ws info t ok else (s, [])).1 with clients := setClient (if info.currentRoom.isSome then leaveCurrentRoom s ws info t ok else (s, [])).1.clients ws ⟨info.name, some (jsTrim r)⟩, rooms := updRoom (if info.currentRoom.isSome then leaveCurrentRoom s ws info t ok else (s, [])).1.rooms (jsTrim r) (fun l => addMem l ws) } : ServerState).histories (jsTrim r))).length > 0 then sendTo ({ (if info.currentRoom.isSome then leaveCurrentRoom s ws info t ok else (s, [])).1 with clients := setClient (if info.currentRoom.isSome then leaveCurrentRoom s ws info t ok else (s, [])).1.clients ws ⟨info.name, some (jsTrim r)⟩, rooms := updRoom (if info.currentRoom.isSome then leaveCurrentRoom s ws info t ok else (s, [])).1.rooms (jsTrim r) (fun l => addMem l ws) } : ServerState) ws (Frame.history (loadRoomHistory (({ (if info.currentRoom.isSome then leaveCurrentRoom s ws info t ok else (s, [])).1 with clients := setClient (if info.currentRoom.isSome then leaveCurrentRoom s ws info t ok else (s, [])).1.clients ws ⟨info.name, some (jsTrim r)⟩, rooms := updRoom (if info.currentRoom.isSome then leaveCurrentRoom s ws info t ok else (s, [])).1.rooms (jsTrim r) (fun l => addMem l ws) } : ServerState).histories (jsTrim r))) (jsTrim r)) else [])) ++ broadcastToRoom ({ ({ (if info.currentRoom.isSome then leaveCurrentRoom s ws info t ok else (s, [])).1 with clients := setClient (if info.currentRoom.isSome then leaveCurrentRoom s ws info t ok else (s, [])).1.clients ws ⟨info.name, some (jsTrim r)⟩, rooms := updRoom (if info.currentRoom.isSome then leaveCurrentRoom s ws info t ok else (s, [])).1.rooms (jsTrim r) (fun l => addMem l ws) } : ServerState) with histories := addMessageToRoom ({ (if info.currentRoom.isSome then leaveCurrentRoom s ws info t ok else (s, [])).1 with clients := setClient (if info.currentRoom.isSome then leaveCurrentRoom s ws info t ok else (s, [])).1.clients ws ⟨info.name, some (jsTrim r)⟩, rooms := updRoom (if info.currentRoom.isSome then leaveCurrentRoom s ws info t ok else (s, [])).1.rooms (jsTrim r) (fun l => addMem l ws) } : ServerState).histories (jsTrim r) (⟨"system", none, info.name ++ " joined the room", t⟩ : StoredMsg) t ok } : ServerState) (jsTrim r) (Frame.userJoinedRoom info.name t (jsTrim r)) (some ws)) ++ sendTo ({ ({ (if info.currentRoom.isSome then leaveCurrentRoom s ws info t ok else (s, [])).1 with clients := setClient (if info.currentRoom.isSome then leaveCurrentRoom s ws info t ok else (s, [])).1.clients ws ⟨info.name, some (jsTrim r)⟩, rooms := updRoom (if info.currentRoom.isSome then leaveCurrentRoom s ws info t ok else (s, [])).1.rooms (jsTrim r) (fun l => addMem l ws) } : ServerState) with histories := addMessageToRoom ({ (if info.currentRoom.isSome then leaveCurrentRoom s ws info t ok else (s, [])).1 with clients := setClient (if info.currentRoom.isSome then leaveCurrentRoom s ws info t ok else (s, [])).1.clients ws ⟨info.name, some (jsTrim r)⟩, rooms := updRoom (if info.currentRoom.isSome then leaveCurrentRoom s ws info t ok else (s, [])).1.rooms (jsTrim r) (fun l => addMem l ws) } : ServerState).histories (jsTrim r) (⟨"system", none, info.name ++ " joined the room", t⟩ : StoredMsg) t ok } : ServerState) ws (Frame.system ("You " ++ (if info.currentRoom.isSome then "switched to room: " ++ jsTrim r else "joined room: " ++ jsTrim r)))).filter
      (fun p => p.1 == ws)).head? = some (ws, Frame.history msgs rm)
  have hA : ∀ p ∈ (if info.currentRoom.isSome then leaveCurrentRoom s ws info t ok else (s, [])).2, p.1 ≠ ws := by
    by_cases hin : info.currentRoom.isSome
    · rw [if_pos hin]
      exact leaveCurrentRoom_no_self s ws info t ok
    · rw [if_neg hin]
      intro p hp
      cases hp
  have hC : ∀ p ∈ broadcastToRoom ({ ({ (if info.currentRoom.isSome then leaveCurrentRoom s ws info t ok else (s, [])).1 with clients := setClient (if info.currentRoom.isSome then leaveCurrentRoom s ws info t ok else (s, [])).1.clients ws ⟨info.name, some (jsTrim r)⟩, rooms := updRoom (if info.currentRoom.isSome then leaveCurrentRoom s ws info t ok else (s, [])).1.rooms (jsTrim r) (fun l => addMem l ws) } : ServerState) with histories := addMessageToRoom ({ (if info.currentRoom.isSome then leaveCurrentRoom s ws info t ok else (s, [])).1 with clients := setClient (if info.currentRoom.isSome then leaveCurrentRoom s ws info t ok else (s, [])).1.clients ws ⟨info.name, some (jsTrim r)⟩, rooms := updRoom (if info.currentRoom.isSome then leaveCurrentRoom s ws info t ok else (s, [])).1.rooms (jsTrim r) (fun l => addMem l ws) } : ServerState).histories (jsTrim r) (⟨"system", none, info.name ++ " joined the room", t⟩ : StoredMsg) t ok } : ServerState) (jsTrim r) (Frame.userJoinedRoom info.name t (jsTrim r)) (some ws), p.1 ≠ ws := by
    intro p hp
    have := (broadcastToRoom_frame hp).2.1
    intro he
    exact this (by rw [he])
  have hmB : (ws, Frame.history msgs rm) ∈ (if (loadRoomHistory (({ (if info.currentRoom.isSome then leaveCurrentRoom s ws info t ok else (s, [])).1 with clients := setClient (if info.currentRoom.isSome then leaveCurrentRoom s ws info t ok else (s, [])).1.clients ws ⟨info.name, some (jsTrim r)⟩, rooms := updRoom (if info.currentRoom.isSome then leaveCurrentRoom s ws info t ok else (s, [])).1.rooms (jsTrim r) (fun l => addMem l ws) } : ServerState).histories (jsTrim r))).length > 0 then sendTo ({ (if info.currentRoom.isSome then leaveCurrentRoom s ws info t ok else (s, [])).1 with clients := setClient (if info.currentRoom.isSome then leaveCurrentRoom s ws info t ok else (s, [])).1.clients ws ⟨info.name, some (jsTrim r)⟩, rooms := updRoom (if info.currentRoom.isSome then leaveCurrentRoom s ws info t ok else (s, [])).1.rooms (jsTrim r) (fun l => addMem l ws) } : ServerState) ws (Frame.history (loadRoomHistory (({ (if info.currentRoom.isSome then leaveCurrentRoom s ws info t ok else (s, [])).1 with clients := setClient (if info.currentRoom.isSome then leaveCurrentRoom s ws info t ok else (s, [])).1.clients ws ⟨info.name, some (jsTrim r)⟩, rooms := updRoom (if info.currentRoom.isSome then leaveCurrentRoom s ws info t ok else (s, [])).1.rooms (jsTrim r) (fun l => addMem l ws) } : ServerState).histories (jsTrim r))) (jsTrim r)) else []) := by
    rcases List.mem_append.mp hm with h1 | h1
    · rcases List.mem_append.mp h1 with h2 | h2
      · rcases List.mem_append.mp h2 with h3 | h3
        · exact absurd rfl (hA _ h3)
        · exact h3
      · exact absurd rfl (hC _ h2)
    · have := mem_sendTo h1
      injection this with h1' h2'
      cases h2'
  by_cases hlen : (loadRoomHistory (({ (if info.currentRoom.isSome then leaveCurrentRoom s ws info t ok else (s, [])).1 with clients := setClient (if info.currentRoom.isSome then leaveCurrentRoom s ws info t ok else (s, [])).1.clients ws ⟨info.name, some (jsTrim r)⟩, rooms := updRoom (if info.currentRoom.isSome then leaveCurrentRoom s ws info t ok else (s, [])).1.rooms (jsTrim r) (fun l => addMem l ws) } : ServerState).histories (jsTrim r))).length > 0
  case neg =>
    rw [if_neg hlen] at hmB
    cases hmB
  case pos =>
    rw [if_pos hlen] at hmB
    have hopen : ws ∈ ({ (if info.currentRoom.isSome then leaveCurrentRoom s ws info t ok else (s, [])).1 with clients := setClient (if info.currentRoom.isSome then leaveCurrentRoom s ws info t ok else (s, [])).1.clients ws ⟨info.name, some (jsTrim r)⟩, rooms := updRoom (if info.currentRoom.isSome then leaveCurrentRoom s ws info t ok else (s, [])).1.rooms (jsTrim r) (fun l => addMem l ws) } : ServerState).openConns := by
      by_contra hno
      unfold sendTo at hmB
      rw [if_neg hno] at hmB
      cases hmB
    have heq := mem_sendTo hmB
    injection heq with he1 he2
    injection he2 with hmsgs hrm
    have hB : (if (loadRoomHistory (({ (if info.currentRoom.isSome then leaveCurrentRoom s ws info t ok else (s, [])).1 with clients := setClient (if info.currentRoom.isSome then leaveCurrentRoom s ws info t ok else (s, [])).1.clients ws ⟨info.name, some (jsTrim r)⟩, rooms := updRoom (if info.currentRoom.isSome then leaveCurrentRoom s ws info t ok else (s, [])).1.rooms (jsTrim r) (fun l => addMem l ws) } : ServerState).histories (jsTrim r))).length > 0 then sendTo ({ (if info.currentRoom.isSome then leaveCurrentRoom s ws info t ok else (s, [])).1 with clients := setClient (if info.currentRoom.isSome then leaveCurrentRoom s ws info t ok else (s, [])).1.clients ws ⟨info.name, some (jsTrim r)⟩, rooms := updRoom (if info.currentRoom.isSome then leaveCurrentRoom s ws info t ok else (s, [])).1.rooms (jsTrim r) (fun l => addMem l ws) } : ServerState) ws (Frame.history (loadRoomHistory (({ (if info.currentRoom.isSome then leaveCurrentRoom s ws info t ok else (s, [])).1 with clients := setClient (if info.currentRoom.isSome then leaveCurrentRoom s ws info t ok else (s, [])).1.clients ws ⟨info.name, some (jsTrim r)⟩, rooms := updRoom (if info.currentRoom.isSome then leaveCurrentRoom s ws info t ok else (s, [])).1.rooms (jsTrim r) (fun l => addMem l ws) } : ServerState).histories (jsTrim r))) (jsTrim r)) else []) = [(ws, Frame.history (loadRoomHistory (({ (if info.currentRoom.isSome then leaveCurrentRoom s ws info t ok else (s, [])).1 with clients := setClient (if info.currentRoom.isSome then leaveCurrentRoom s ws info t ok else (s, [])).1.clients ws ⟨info.name, some (jsTrim r)⟩, rooms := updRoom (if info.currentRoom.isSome then leaveCurrentRoom s ws info t ok else (s, [])).1.rooms (jsTrim r) (fun l => addMem l ws) } : ServerState).histories (jsTrim r))) (jsTrim r))] := by
      rw [if_pos hlen]
      unfold sendTo
      rw [if_pos hopen]
    rw [List.filter_append, List.filter_append, List.filter_append, hB]
    have hfA : ((if info.currentRoom.isSome then leaveCurrentRoom s ws info t ok else (s, [])).2).filter (fun p => p.1 == ws) = [] := by
      rw [List.filter_eq_nil_iff]
      intro p hp
      simpa using hA p hp
    have hfC : (broadcastToRoom ({ ({ (if info.currentRoom.isSome then leaveCurrentRoom s ws info t ok else (s, [])).1 with clients := setClient (if info.currentRoom.isSome then leaveCurrentRoom s ws info t ok else (s, [])).1.clients ws ⟨info.name, some (jsTrim r)⟩, rooms := updRoom (if info.currentRoom.isSome then leaveCurrentRoom s ws info t ok else (s, [])).1.rooms (jsTrim r) (fun l => addMem l ws) } : ServerState) with histories := addMessageToRoom ({ (if info.currentRoom.isSome then leaveCurrentRoom s ws info t ok else (s, [])).1 with clients := setClient (if info.currentRoom.isSome then leaveCurrentRoom s ws info t ok else (s, [])).1.clients ws ⟨info.name, some (jsTrim r)⟩, rooms := updRoom (if info.currentRoom.isSome then leaveCurrentRoom s ws info t ok else (s, [])).1.rooms (jsTrim r) (fun l => addMem l ws) } : ServerState).histories (jsTrim r) (⟨"system", none, info.name ++ " joined the room", t⟩ : StoredMsg) t ok } : ServerState) (jsTrim r) (Frame.userJoinedRoom info.name t (jsTrim r)) (some ws)).filter (fun p => p.1 == ws) = [] := by
      rw [List.filter_eq_nil_iff]
      intro p hp
      simpa using hC p hp
    rw [hfA, hfC]
    simp only [List.nil_append, List.append_nil]
    rw [List.filter_cons_of_pos (by simp)]
    rw [List.head?_append]
    simp only [List.head?_cons, Option.or_some]
    rw [hmsgs, hrm]

/-- C5: during the processing of a connection's `join_room` event, if the
room's persisted history snapshot is delivered to the joining connection,
then it is the first frame that connection receives from that event onward:
no live broadcast from this or any later event precedes it in the delivered
output sequence.  Proved in the specification's scheduling model (one
inbound event processed to completion at a time); interleavings at the
`await` points inside `handleJoinRoom` are outside this model. -/
theorem history_before_later_broadcasts
    (s : ServerState) (ws : Conn) (r : String) (t : Nat) (ok : Bool) (info : ClientInfo)
    (rest : List Event) (msgs : List StoredMsg) (rm : String)
    (hinfo : lookupClient s.clients ws = some info)
    (hval : isValidRoom (jsTrim r) = true)
    (hm : (ws, Frame.history msgs rm)
      ∈ (stepEvent s (Event.frame ws (ClientMsg.joinRoom r) t ok)).2) :
    (((processEvents s (Event.frame ws (ClientMsg.joinRoom r) t ok :: rest)).2).filter
        (fun p => p.1 == ws)).head? = some (ws, Frame.history msgs rm) := by
  have hv : validateMessage (ClientMsg.joinRoom r) = true :=
    validateMessage_joinRoom (isValidRoom_ne_empty hval)
  have hstep : (stepEvent s (Event.frame ws (ClientMsg.joinRoom r) t ok)).2
      = (handleJoinRoom s ws r t ok).2 := by
    show (handleRawMessage s ws (ClientMsg.joinRoom r) t ok).2 = _
    rw [show handleRawMessage s ws (ClientMsg.joinRoom r) t ok
      = handleJoinRoom s ws r t ok from handleRawMessage_valid hv]
  rw [hstep] at hm
  rw [processEvents_cons_snd, List.filter_append, List.head?_append, hstep,
    handleJoinRoom_filter_head hinfo hval hm]
  rfl

theorem history_before_later_broadcasts_witness :
    ((1 : Conn), Frame.history [⟨"message", some "bob", "old", 1⟩] "general")
      ∈ (stepEvent (⟨[(1, ⟨"ann", none⟩)], fun _ => [], fun x => if x = "general" then ⟨1, [⟨0, [⟨"message", some "bob", "old", 1⟩], 1, 1, 1⟩]⟩ else RoomStore.empty, [1]⟩ : ServerState) (Event.frame 1 (ClientMsg.joinRoom "general") 5 true)).2 ∧
    (((processEvents (⟨[(1, ⟨"ann", none⟩)], fun _ => [], fun x => if x = "general" then ⟨1, [⟨0, [⟨"message", some "bob", "old", 1⟩], 1, 1, 1⟩]⟩ else RoomStore.empty, [1]⟩ : ServerState)
        (Event.frame 1 (ClientMsg.joinRoom "general") 5 true :: [])).2).filter
        (fun p => p.1 == 1)).head?
      = some (1, Frame.history [⟨"message", some "bob", "old", 1⟩] "general") :=
  ⟨by decide,
   history_before_later_broadcasts (⟨[(1, ⟨"ann", none⟩)], fun _ => [], fun x => if x = "general" then ⟨1, [⟨0, [⟨"message", some "bob", "old", 1⟩], 1, 1, 1⟩]⟩ else RoomStore.empty, [1]⟩ : ServerState) 1 "general" 5 true ⟨"ann", none⟩ []
     [⟨"message", some "bob", "old", 1⟩] "general" (by decide) (by decide) (by decide)⟩


end TinyGroupChat
